import Mathlib

open List

/-!
Shallow embedding of the duplicate-file engine of super-dee-duper:
the hash provider and duplicate classifier of src/scanner.mjs and
src/generate-test-files.mjs (findDuplicates), the directory walk
(scanDirectory) with exclusion filtering and per-entry error recovery,
and the scan index of src/database.mjs (ScanDatabase).

Modelling conventions:
- bytes are natural numbers, file content is a byte list;
- a cryptographic digest is a natural number produced by a digest
  function `hashFn` kept as a parameter (a 256-bit hex digest string of
  fixed length compares exactly like the number it denotes);
- JavaScript Map grouping (insertion-ordered keys, push-ordered
  buckets) is `bucketsBy`;
- Array.prototype.sort with a numeric comparator is a stable
  insertion sort by rank (`sortRanked`), as guaranteed by ES2019.
-/

/-- Byte sequence: the content of one file. -/
abbrev ByteSeq := List Nat

/-- Number of bytes covered by the quick digest: createReadStream with
start 0 and end 65535 reads bytes 0 through 65535 inclusive, i.e. the
first 65536 bytes of the file. -/
def quickHashLimit : Nat := 65536

/-- Model of calculateHash (scanner.mjs lines 7-16): the whole file
content is streamed chunk-by-chunk into one digest, so the result is the
digest of the entire byte sequence. -/
def calculateHash (hashFn : ByteSeq → Nat) (content : ByteSeq) : Nat :=
  hashFn content

/-- Model of calculateQuickHash (scanner.mjs lines 19-28): the stream is
opened with start 0 and end 65535, so the digest covers exactly the first
65536 bytes, or the whole file when it is shorter. -/
def calculateQuickHash (hashFn : ByteSeq → Nat) (content : ByteSeq) : Nat :=
  hashFn (content.take quickHashLimit)

/-- Model of one FileInfo record as built by scanDirectory
(generate-test-files.mjs lines 395-404, scanner.mjs lines 62-71).
The content field records the bytes on disk at the record's path, from
which the scanner derives size (fs.stat) and quickHash (the quick digest
stream over that same file); formattedSize, a floating-point presentation
string, is omitted because no claim concerns it. -/
structure FileRec where
  path : String
  name : String
  size : Nat
  created : Nat
  modified : Nat
  content : ByteSeq
  quickHash : Nat
  hash : Option Nat
deriving DecidableEq

instance : Inhabited FileRec := ⟨⟨"", "", 0, 0, 0, [], 0, none⟩⟩

/-- Keys of a JavaScript Map in insertion order: the first occurrence of
each key, later duplicates dropped. -/
def firstKeys {κ : Type} [DecidableEq κ] : List κ → List κ
  | [] => []
  | k :: ks => k :: (firstKeys ks).filter (fun x => decide (¬ x = k))

/-- Model of the Map-building loop used three times inside findDuplicates
(scanner.mjs lines 89-95, 108-114, 124-130): every element is pushed onto
the bucket of its key, so buckets appear in first-insertion order of their
keys and each bucket holds exactly the elements with that key, in list
order. -/
def bucketsBy {α κ : Type} [DecidableEq κ] (key : α → κ) (xs : List α) :
    List (List α) :=
  (firstKeys (xs.map key)).map (fun k => xs.filter (fun a => decide (key a = k)))

/-- Stable insertion for the model of Array.prototype.sort with comparator
(a, b) => rank(b) - rank(a): an element is placed before the first element
whose rank is not larger, so ranks descend and, on ties, the earlier
element stays first (sort stability, guaranteed since ES2019). -/
def insertRanked {α : Type} (rank : α → Int) (a : α) : List α → List α
  | [] => [a]
  | b :: t => if rank b ≤ rank a then a :: b :: t else b :: insertRanked rank a t

/-- Stable sort by descending rank, the model of
.sort((a, b) => rank(b) - rank(a)). -/
def sortRanked {α : Type} (rank : α → Int) : List α → List α
  | [] => []
  | a :: t => insertRanked rank a (sortRanked rank t)

/-- Representative size of a group: the size of its first member, the
b[0].size of the final sort comparator (scanner.mjs line 138). -/
def repSize (g : List FileRec) : Nat := (g.headD default).size

/-- Stage 1 of findDuplicates (scanner.mjs lines 89-95): bucket the
records by exact size. -/
def sizeGroups (files : List FileRec) : List (List FileRec) :=
  bucketsBy (fun f : FileRec => f.size) files

/-- Stage 1 filter (scanner.mjs lines 98-100): keep only size buckets
with more than one member. -/
def potentialDuplicates (files : List FileRec) : List (List FileRec) :=
  (sizeGroups files).filter (fun g => decide (1 < g.length))

/-- Stage 2 (scanner.mjs lines 105-118): within one size bucket, the
quickHash sub-buckets that hold more than one member. -/
def bigQuickGroups (g : List FileRec) : List (List FileRec) :=
  (bucketsBy (fun f : FileRec => f.quickHash) g).filter (fun qg => decide (1 < qg.length))

/-- The records on which findDuplicates invokes calculateHash
(scanner.mjs lines 119-122): exactly the members of the surviving
size+quickHash sub-buckets, in processing order. -/
def survivors (files : List FileRec) : List FileRec :=
  (potentialDuplicates files).flatMap
    (fun g => (bigQuickGroups g).flatMap (fun qg => qg))

/-- The assignment file.hash = await calculateHash(file.path)
(scanner.mjs line 121): the record is completed with the full digest of
the content stored at its path. -/
def updateFullHash (hashFn : ByteSeq → Nat) (f : FileRec) : FileRec :=
  { f with hash := some (calculateHash hashFn f.content) }

/-- The sequence of pushes into the duplicates map, in push order
(scanner.mjs lines 119-130): per surviving sub-bucket, every member is
fully hashed and then pushed. -/
def pushes (hashFn : ByteSeq → Nat) (files : List FileRec) : List FileRec :=
  (potentialDuplicates files).flatMap
    (fun g => (bigQuickGroups g).flatMap (fun qg => qg.map (updateFullHash hashFn)))

/-- The value arrays of the duplicates map that keep more than one member
(scanner.mjs lines 136-137). -/
def duplicateGroupsUnsorted (hashFn : ByteSeq → Nat) (files : List FileRec) :
    List (List FileRec) :=
  (bucketsBy (fun f : FileRec => f.hash) (pushes hashFn files)).filter
    (fun g => decide (1 < g.length))

/-- The classification part of findDuplicates (scanner.mjs lines 88-138,
generate-test-files.mjs lines 463-531): three-stage funnel and the final
stable sort by descending size of each group's first member. -/
def findDuplicatesGroups (hashFn : ByteSeq → Nat) (files : List FileRec) :
    List (List FileRec) :=
  sortRanked (fun g => (repSize g : Int)) (duplicateGroupsUnsorted hashFn files)

/-- Records as the scanner actually produces them: the stat size equals
the length of the bytes at the path, and quickHash is the quick digest of
those bytes. -/
def WellFormed (hashFn : ByteSeq → Nat) (f : FileRec) : Prop :=
  f.size = f.content.length ∧ f.quickHash = calculateQuickHash hashFn f.content

/-- Membership test for the size+quickHash bucket of record f. -/
def sameBucket (f x : FileRec) : Bool :=
  decide (x.size = f.size ∧ x.quickHash = f.quickHash)

/-- How many input records share the size+quickHash bucket of record f. -/
def bucketCount (files : List FileRec) (f : FileRec) : Nat :=
  files.countP (sameBucket f)

/-- Records whose size+quickHash bucket has at least two members. -/
def bigBucket (files : List FileRec) (f : FileRec) : Bool :=
  decide (1 < bucketCount files f)

/-- Stat metadata and bytes of one regular file of the modelled
filesystem. -/
structure FileData where
  content : ByteSeq
  created : Nat
  modified : Nat

mutual

/-- One directory entry of the modelled filesystem tree. A file whose
data is none models a per-file stat or hash failure (caught at
scanner.mjs lines 73-75); a directory whose listing is none models an
unreadable directory, whose readdir failure throws the ScanError of
scanner.mjs lines 79-81, caught by the per-entry catch of the parent. -/
inductive FsTree where
  | file (name : String) (data : Option FileData)
  | dir (name : String) (listing : Option FsForest)

/-- Directory entries in readdir order. -/
inductive FsForest where
  | nil
  | cons (t : FsTree) (rest : FsForest)
end

/-- Append of two entry sequences. -/
def FsForest.append : FsForest → FsForest → FsForest
  | .nil, g => g
  | .cons t rest, g => .cons t (rest.append g)

/-- Parameters threaded through scanDirectory
(generate-test-files.mjs lines 357-364): the digest function, the
minimatch pattern matcher taking the relative path and one pattern,
path.relative(process.cwd(), ·), the recursive flag and the exclude
patterns. scanner.mjs runs the same walk with an empty pattern list. -/
structure ScanOpts where
  hashFn : ByteSeq → Nat
  minimatch : String → String → Bool
  relToCwd : String → String
  recursive : Bool
  exclude : List String

/-- path.join(dir, entryName) of the model. -/
def pathJoin (dir name : String) : String := dir ++ "/" ++ name

/-- The exclusion test of generate-test-files.mjs lines 372-377: the
candidate path relative to the caller's working directory is matched
against every exclude pattern; a match skips the entry before any stat,
hash, or recursion happens. -/
def isExcluded (opts : ScanOpts) (fullPath : String) : Bool :=
  opts.exclude.any (fun pat => opts.minimatch (opts.relToCwd fullPath) pat)

mutual

/-- One iteration of the scanDirectory entry loop
(generate-test-files.mjs lines 370-418): excluded entries are skipped
silently; a directory is recursed into only when recursive is set, a
failure of the recursive call being caught and that subtree skipped; a
regular file is stat-ed and quick-hashed into a record with a null full
hash, a per-file failure being caught and that file skipped. -/
def scanEntry (opts : ScanOpts) (dir : String) : FsTree → List FileRec
  | .file name data =>
      let fullPath := pathJoin dir name
      if isExcluded opts fullPath then []
      else
        match data with
        | none => []
        | some d =>
            [{ path := fullPath, name := name, size := d.content.length,
               created := d.created, modified := d.modified,
               content := d.content,
               quickHash := calculateQuickHash opts.hashFn d.content,
               hash := none }]
  | .dir name listing =>
      let fullPath := pathJoin dir name
      if isExcluded opts fullPath then []
      else if opts.recursive then
        match scanDir opts (pathJoin dir name) listing with
        | .error _ => []
        | .ok fs => fs
      else []

/-- The loop over one directory's entries, accumulating allFiles in
entry order. -/
def scanForest (opts : ScanOpts) (dir : String) : FsForest → List FileRec
  | .nil => []
  | .cons t rest => scanEntry opts dir t ++ scanForest opts dir rest

/-- scanDirectory itself: fs.readdir can fail (listing none), raising
the ScanError of the directory; otherwise every entry is processed under
its own try/catch. -/
def scanDir (opts : ScanOpts) (dir : String) :
    Option FsForest → Except String (List FileRec)
  | none => .error ("Failed to scan directory " ++ dir)
  | some f => .ok (scanForest opts dir f)
end

/-- One filesystem touch performed by the walk on a candidate path. -/
inductive FsEvent where
  | readdir (p : String)
  | statFile (p : String)
  | readQuick (p : String)
deriving DecidableEq

/-- The path an event touches. -/
def FsEvent.path : FsEvent → String
  | .readdir p => p
  | .statFile p => p
  | .readQuick p => p

mutual

/-- The filesystem touches of one entry of the walk, in program order:
nothing at all for an excluded entry; the readdir of a directory being
recursed into followed by the touches of its children; the stat and the
quick-hash read of an accepted file (on a failing file these are the
attempts that fail; they are still issued). -/
def eventsEntry (opts : ScanOpts) (dir : String) : FsTree → List FsEvent
  | .file name _ =>
      let fullPath := pathJoin dir name
      if isExcluded opts fullPath then []
      else [.statFile fullPath, .readQuick fullPath]
  | .dir name listing =>
      let fullPath := pathJoin dir name
      if isExcluded opts fullPath then []
      else if opts.recursive then
        .readdir fullPath ::
          (match listing with
           | none => []
           | some f => eventsForest opts fullPath f)
      else []

/-- The filesystem touches of a whole entry list. -/
def eventsForest (opts : ScanOpts) (dir : String) : FsForest → List FsEvent
  | .nil => []
  | .cons t rest => eventsEntry opts dir t ++ eventsForest opts dir rest
end

/-- The same tree with every failing entry (unreadable file or
unreadable directory) removed. -/
def pruneForest : FsForest → FsForest
  | .nil => .nil
  | .cons (.file _ none) rest => pruneForest rest
  | .cons (.file n (some d)) rest => .cons (.file n (some d)) (pruneForest rest)
  | .cons (.dir _ none) rest => pruneForest rest
  | .cons (.dir n (some f)) rest => .cons (.dir n (some (pruneForest f))) (pruneForest rest)

/-- An entry whose own I/O fails: an unreadable regular file, or an
unreadable directory. -/
def entryFails : FsTree → Prop
  | .file _ none => True
  | .dir _ none => True
  | _ => False

mutual

/-- Two directory trees that hold the same entries, each directory
listing its children in a possibly different order: the traversal-order
nondeterminism of readdir. -/
inductive TreeReorder : FsTree → FsTree → Prop where
  | file (name : String) (data : Option FileData) :
      TreeReorder (.file name data) (.file name data)
  | dirFail (name : String) : TreeReorder (.dir name none) (.dir name none)
  | dirOk (name : String) {f1 f2 : FsForest} :
      ForestReorder f1 f2 →
      TreeReorder (.dir name (some f1)) (.dir name (some f2))

/-- Permutation of an entry list, with children reordered recursively. -/
inductive ForestReorder : FsForest → FsForest → Prop where
  | nil : ForestReorder .nil .nil
  | cons {t1 t2 : FsTree} {f1 f2 : FsForest} :
      TreeReorder t1 t2 → ForestReorder f1 f2 →
      ForestReorder (.cons t1 f1) (.cons t2 f2)
  | swap (t1 t2 : FsTree) (f : FsForest) :
      ForestReorder (.cons t1 (.cons t2 f)) (.cons t2 (.cons t1 f))
  | trans {f1 f2 f3 : FsForest} :
      ForestReorder f1 f2 → ForestReorder f2 f3 → ForestReorder f1 f3
end

/-- One row of the files table (database.mjs lines 23-34). -/
structure FileRow where
  id : Nat
  scanId : Nat
  path : String
  size : Nat
  created : Nat
  modified : Nat
  quickHash : Nat
  fullHash : Option Nat
  groupId : Option Nat
deriving DecidableEq

instance : Inhabited FileRow := ⟨⟨0, 0, "", 0, 0, 0, 0, none, none⟩⟩

/-- One row of the scan_info table (database.mjs lines 14-21). -/
structure ScanRow where
  id : Nat
  baseDirectory : String
  startTime : Nat
  endTime : Option Nat
  filesScanned : Nat
  groupsFound : Nat
deriving DecidableEq

/-- State of one ScanDatabase file: both tables in row order, plus the
next INTEGER PRIMARY KEY values (SQLite rowids start at 1). -/
structure ScanDB where
  scans : List ScanRow
  files : List FileRow
  nextScanId : Nat
  nextFileId : Nat
deriving DecidableEq

/-- A freshly created, empty index database. -/
def ScanDB.empty : ScanDB := ⟨[], [], 1, 1⟩

/-- startScan (database.mjs lines 41-48): insert a scan_info row and
return its rowid. -/
def ScanDB.startScan (db : ScanDB) (baseDirectory : String)
    (startTime : Nat) : ScanDB × Nat :=
  (⟨db.scans ++ [⟨db.nextScanId, baseDirectory, startTime, none, 0, 0⟩],
    db.files, db.nextScanId + 1, db.nextFileId⟩, db.nextScanId)

/-- updateScanProgress (database.mjs lines 50-56). -/
def ScanDB.updateScanProgress (db : ScanDB)
    (scanId filesScanned groupsFound : Nat) : ScanDB :=
  { db with
    scans := db.scans.map (fun s =>
      if s.id = scanId then
        { s with filesScanned := filesScanned, groupsFound := groupsFound }
      else s) }

/-- completeScan (database.mjs lines 58-62): set end_time. -/
def ScanDB.completeScan (db : ScanDB) (scanId endTime : Nat) : ScanDB :=
  { db with
    scans := db.scans.map (fun s =>
      if s.id = scanId then { s with endTime := some endTime } else s) }

/-- addFile (database.mjs lines 64-84): append-only insert of one file
row; full_hash takes the record's current hash field and group_id the
defaulted null argument. -/
def ScanDB.addFile (db : ScanDB) (scanId : Nat) (f : FileRec) : ScanDB :=
  { db with
    files := db.files ++
      [⟨db.nextFileId, scanId, f.path, f.size, f.created, f.modified,
        f.quickHash, f.hash, none⟩],
    nextFileId := db.nextFileId + 1 }

/-- updateFileHash (database.mjs lines 86-90): set full_hash and
group_id of the row with the given rowid. -/
def ScanDB.updateFileHash (db : ScanDB) (fileId fullHash groupId : Nat) :
    ScanDB :=
  { db with
    files := db.files.map (fun r =>
      if r.id = fileId then
        { r with fullHash := some fullHash, groupId := some groupId }
      else r) }

/-- The SELECT id FROM files WHERE path = ? lookup of
generate-test-files.mjs lines 500-502: .get() returns the first matching
row in rowid order. -/
def ScanDB.findIdByPath (db : ScanDB) (p : String) : Option Nat :=
  (db.files.find? (fun r => decide (r.path = p))).map (fun r => r.id)

/-- deleteFile (database.mjs lines 122-124): DELETE FROM files WHERE
path = ? removes every row with that path. -/
def ScanDB.deleteFile (db : ScanDB) (p : String) : ScanDB :=
  { db with files := db.files.filter (fun r => decide (¬ r.path = p)) }

/-- updateFilePath (database.mjs lines 126-130). -/
def ScanDB.updateFilePath (db : ScanDB) (oldPath newPath : String) : ScanDB :=
  { db with
    files := db.files.map (fun r =>
      if r.path = oldPath then { r with path := newPath } else r) }

/-- getDuplicateGroups (database.mjs lines 96-120): rows of the session
whose group_id is set, grouped by group_id, keeping groups with more than
one row, ordered by size descending. Digests are numbers here and the
TEXT ordering of equal-length hex digests is their numeric ordering, so
GROUP BY group_id (running over the idx_files_group_id index) yields the
groups in ascending key order; the bare f.size of this aggregate query is
the size of one row of the group, modelled as the group's first row;
ORDER BY f.size DESC is modelled as a stable sort of that grouped
output. SQLite itself does not promise any particular order between
groups of equal size. -/
def ScanDB.getDuplicateGroups (db : ScanDB) (scanId : Nat) :
    List (Nat × List FileRow) :=
  let rows := db.files.filter (fun r =>
    decide (r.scanId = scanId ∧ ¬ r.groupId = none))
  let keys := sortRanked (fun k : Nat => -(k : Int))
    (firstKeys (rows.filterMap (fun r => r.groupId)))
  let groups := keys.map (fun g =>
    (g, rows.filter (fun r => decide (r.groupId = some g))))
  sortRanked (fun p => ((p.2.headD default).size : Int))
    (groups.filter (fun p => decide (1 < p.2.length)))

/-- One hex digit, as Buffer.toString of the crypto random bytes renders
it. -/
def hexDigitChar (n : Nat) : Char :=
  if n < 10 then Char.ofNat (48 + n) else Char.ofNat (87 + n)

/-- Two hex characters of one byte. -/
def byteHexChars (b : Nat) : List Char :=
  [hexDigitChar (b / 16), hexDigitChar (b % 16)]

/-- crypto.randomBytes(4).toString of database.mjs line 137: the hex
rendering of the four random bytes. -/
def hexOfBytes (bytes : List Nat) : String := ⟨bytes.flatMap byteHexChars⟩

/-- ScanDatabase.generateIndexPath (database.mjs lines 136-139). -/
def generateIndexPath (baseDir : String) (rnd : List Nat) : String :=
  pathJoin baseDir (".super-dee-duper." ++ hexOfBytes rnd)

/-- The dbPath choice of findDuplicates (generate-test-files.mjs line
446): indexPath || ScanDatabase.generateIndexPath(process.cwd()).
JavaScript || falls through on the empty string as well as on a missing
option. -/
def resolveDbPath (indexPath : Option String) (cwd : String)
    (rnd : List Nat) : String :=
  match indexPath with
  | some s => if s = "" then generateIndexPath cwd rnd else s
  | none => generateIndexPath cwd rnd

/-- What the index-backed findDuplicates returns (generate-test-files.mjs
line 534), together with the final database state. -/
structure RunOutcome where
  result : List (List FileRec)
  dbPath : String
  scanId : Nat
  db : ScanDB

/-- The body of the hashing-phase fold of runIndexed. -/
def updStep (hashFn : ByteSeq → Nat) (d : ScanDB) (f : FileRec) : ScanDB :=
  match ScanDB.findIdByPath d f.path with
  | some fid =>
      ScanDB.updateFileHash d fid (calculateHash hashFn f.content)
        (calculateHash hashFn f.content)
  | none => d

/-- The index-backed findDuplicates of generate-test-files.mjs lines
437-534, from the record list the walk produced: the database is created
unconditionally at the resolved path, a scan_info row is inserted, every
scanned record is added during the walk in traversal order, each fully
hashed record's row is updated through the path lookup with the digest as
its own group id, progress rows are written (only the last write of each
phase is observable in the final state, which is what is modelled), and
the scan is completed. -/
def runIndexed (hashFn : ByteSeq → Nat) (indexPath : Option String)
    (cwd : String) (rnd : List Nat) (baseDir : String)
    (startTime endTime : Nat) (records : List FileRec) : RunOutcome :=
  let dbPath := resolveDbPath indexPath cwd rnd
  let p := ScanDB.startScan ScanDB.empty baseDir startTime
  let db2 := records.foldl (fun d r => ScanDB.addFile d p.2 r) p.1
  let db3 := if records.length = 0 then db2
    else ScanDB.updateScanProgress db2 p.2 records.length 0
  let db4 := (survivors records).foldl (updStep hashFn) db3
  let g := (firstKeys ((pushes hashFn records).map (fun f => f.hash))).length
  let db5 := if (survivors records).length = 0 then db4
    else ScanDB.updateScanProgress db4 p.2 records.length g
  { result := findDuplicatesGroups hashFn records, dbPath := dbPath,
    scanId := p.2, db := ScanDB.completeScan db5 p.2 endTime }

/-- Witness input: two records with identical one-byte content at
distinct paths. -/
def recA : FileRec := ⟨"d/a", "a", 1, 0, 0, [1], 7, none⟩

/-- Witness input: duplicate of recA under another path. -/
def recB : FileRec := ⟨"d/b", "b", 1, 0, 0, [1], 7, none⟩

/-- Digest function of the C1 witness: content length. -/
def lenHash : ByteSeq → Nat := fun c => c.length

instance wellFormedDecidable (hashFn : ByteSeq → Nat) (f : FileRec) :
    Decidable (WellFormed hashFn f) :=
  inferInstanceAs
    (Decidable (f.size = f.content.length ∧
      f.quickHash = calculateQuickHash hashFn f.content))

/-- Injective digest used by witnesses that need a collision-free hash:
a pairing encoding of byte lists. -/
def listEnc : ByteSeq → Nat
  | [] => 0
  | b :: t => Nat.pair b (listEnc t) + 1

/-- Entry name of a directory entry. -/
def FsTree.entryName : FsTree → String
  | .file n _ => n
  | .dir n _ => n

/-- Model of the try/catch wrapper of findDuplicates around the walk
(scanner.mjs lines 84-87 and 139-141): a root readdir failure is
rethrown, anything below the root was already recovered inside the walk,
and the surviving records are classified. -/
def findDuplicatesFrom (opts : ScanOpts) (dir : String)
    (listing : Option FsForest) : Except String (List (List FileRec)) :=
  match scanDir opts dir listing with
  | .error e => .error ("Failed to find duplicates: " ++ e)
  | .ok files => .ok (findDuplicatesGroups opts.hashFn files)


/-- Witness fixture: concrete scan options with one exclude pattern and
literal string matching in place of minimatch. -/
def opts0 : ScanOpts :=
  ⟨lenHash, fun r p => decide (r = p), fun s => s, true, ["/skip"]⟩

/-- Path multiset of one group: its members' paths, order forgotten. -/
def pathMultiset (g : List FileRec) : Multiset String :=
  ((g.map (fun f => f.path) : List String) : Multiset String)


/-- The files-table row that addFile writes for one record. -/
def rowOfRecord (sid i : Nat) (r : FileRec) : FileRow :=
  ⟨i, sid, r.path, r.size, r.created, r.modified, r.quickHash, r.hash, none⟩

/-- The effect of updateFileHash on one row: full_hash set and group_id
set to the digest itself (generate-test-files.mjs line 499: the digest is
the group id). -/
def markRow (d : Nat) (row : FileRow) : FileRow :=
  { row with fullHash := some d, groupId := some d }

/-- Net effect of the whole hashing phase on one row: the first fully
hashed record with this row's path, if any, marks the row with its
digest. -/
def applyHashUpdates (hashFn : ByteSeq → Nat) (S : List FileRec)
    (row : FileRow) : FileRow :=
  match S.find? (fun f => decide (f.path = row.path)) with
  | some f => markRow (calculateHash hashFn f.content) row
  | none => row

/-- Paths of the records of one duplicate group, selected directly from
the input: the fully hashed records whose digest is d, in input order. -/
def canonSel (hashFn : ByteSeq → Nat) (records : List FileRec) (d : Nat) :
    List String :=
  (records.filter (fun r => bigBucket records r &&
    decide (calculateHash hashFn r.content = d))).map (fun f => f.path)

/-- The digests of the fully hashed records, in first-occurrence order. -/
def canonKeys (hashFn : ByteSeq → Nat) (records : List FileRec) : List Nat :=
  firstKeys ((records.filter (bigBucket records)).map
    (fun r => calculateHash hashFn r.content))

/-- Digests whose group keeps more than one member. -/
def canonCond (hashFn : ByteSeq → Nat) (records : List FileRec) :
    Nat → Bool :=
  fun d => decide (1 < (canonSel hashFn records d).length)

/-- Witness fixture: an index holding one session with a two-row group
(digest 5, one row at path p) and a two-row group (digest 7). -/
def db0 : ScanDB :=
  ⟨[⟨1, "d", 0, none, 4, 2⟩],
    [⟨1, 1, "p", 1, 0, 0, 0, some 5, some 5⟩,
     ⟨2, 1, "q", 1, 0, 0, 0, some 5, some 5⟩,
     ⟨3, 1, "r", 1, 0, 0, 0, some 7, some 7⟩,
     ⟨4, 1, "s", 1, 0, 0, 0, some 7, some 7⟩], 2, 5⟩

/-- Counterexample fixture: the digest of a byte list read as decimal
digits. -/
def foldHash : ByteSeq → Nat := fun c => c.foldl (fun a b => 10 * a + b) 0

/-- Counterexample fixture: two duplicate pairs of equal size whose
digests order oppositely to their discovery order. -/
def recsTie : List FileRec :=
  [⟨"a1", "a1", 2, 0, 0, [5, 2], 52, none⟩,
   ⟨"a2", "a2", 2, 0, 0, [5, 2], 52, none⟩,
   ⟨"b1", "b1", 2, 0, 0, [5, 1], 51, none⟩,
   ⟨"b2", "b2", 2, 0, 0, [5, 1], 51, none⟩]

theorem mem_firstKeys {κ : Type} [DecidableEq κ] {l : List κ} {a : κ} :
    a ∈ firstKeys l ↔ a ∈ l := by
  induction l with
  | nil => simp [firstKeys]
  | cons k ks ih =>
    by_cases hak : a = k
    · subst hak
      simp [firstKeys]
    · simp [firstKeys, hak, ih]

theorem nodup_firstKeys {κ : Type} [DecidableEq κ] (l : List κ) :
    (firstKeys l).Nodup := by
  induction l with
  | nil => simp [firstKeys]
  | cons k ks ih =>
    refine List.nodup_cons.mpr ⟨?_, ih.filter _⟩
    intro hmem
    have := List.mem_filter.mp hmem
    simp at this

theorem mem_bucketsBy {α κ : Type} [DecidableEq κ] {key : α → κ}
    {xs : List α} {g : List α} :
    g ∈ bucketsBy key xs ↔
      ∃ k, k ∈ firstKeys (xs.map key) ∧
        g = xs.filter (fun a => decide (key a = k)) := by
  simp only [bucketsBy, List.mem_map]
  constructor
  · rintro ⟨k, hk, rfl⟩
    exact ⟨k, hk, rfl⟩
  · rintro ⟨k, hk, rfl⟩
    exact ⟨k, hk, rfl⟩

theorem insertRanked_perm {α : Type} (rank : α → Int) (a : α) (l : List α) :
    List.Perm (insertRanked rank a l) (a :: l) := by
  induction l with
  | nil => simp [insertRanked]
  | cons b u ih =>
    simp only [insertRanked]
    split
    · exact List.Perm.refl _
    · exact List.Perm.trans (List.Perm.cons b ih) (List.Perm.swap a b u)

theorem sortRanked_perm {α : Type} (rank : α → Int) (l : List α) :
    List.Perm (sortRanked rank l) l := by
  induction l with
  | nil => simp [sortRanked]
  | cons a t ih =>
    exact List.Perm.trans (insertRanked_perm rank a (sortRanked rank t))
      (List.Perm.cons a ih)

theorem insertRanked_sorted {α : Type} (rank : α → Int) (a : α)
    {l : List α} (h : l.Pairwise (fun x y => rank y ≤ rank x)) :
    (insertRanked rank a l).Pairwise (fun x y => rank y ≤ rank x) := by
  induction l with
  | nil => simp [insertRanked]
  | cons b t ih =>
    have hb := List.pairwise_cons.mp h
    simp only [insertRanked]
    split
    · rename_i hle
      refine List.pairwise_cons.mpr ⟨?_, h⟩
      intro x hx
      rcases List.mem_cons.mp hx with rfl | hx'
      · omega
      · have := hb.1 x hx'
        omega
    · rename_i hgt
      refine List.pairwise_cons.mpr ⟨?_, ih hb.2⟩
      intro x hx
      have hx' : x = a ∨ x ∈ t :=
        List.mem_cons.mp ((insertRanked_perm rank a t).mem_iff.mp hx)
      rcases hx' with rfl | hx'
      · omega
      · exact hb.1 x hx'

theorem sortRanked_sorted {α : Type} (rank : α → Int) (l : List α) :
    (sortRanked rank l).Pairwise (fun x y => rank y ≤ rank x) := by
  induction l with
  | nil => simp [sortRanked]
  | cons a t ih => exact insertRanked_sorted rank a ih

theorem insertRanked_filter_rank {α : Type} (rank : α → Int) (a : α)
    (s : Int) (l : List α) :
    (insertRanked rank a l).filter (fun x => decide (rank x = s)) =
      if rank a = s then a :: l.filter (fun x => decide (rank x = s))
      else l.filter (fun x => decide (rank x = s)) := by
  induction l with
  | nil =>
    simp only [insertRanked]
    split <;> simp_all [List.filter]
  | cons b t ih =>
    simp only [insertRanked]
    split
    · rename_i hle
      by_cases has : rank a = s <;> simp [List.filter_cons, has]
    · rename_i hgt
      by_cases has : rank a = s
      · have hbns : ¬ rank b = s := by omega
        simp [List.filter_cons, hbns, ih, has]
      · by_cases hbs : rank b = s <;> simp [List.filter_cons, hbs, ih, has]

theorem sortRanked_filter_rank {α : Type} (rank : α → Int) (s : Int)
    (l : List α) :
    (sortRanked rank l).filter (fun x => decide (rank x = s)) =
      l.filter (fun x => decide (rank x = s)) := by
  induction l with
  | nil => rfl
  | cons a t ih =>
    simp only [sortRanked]
    rw [insertRanked_filter_rank]
    by_cases has : rank a = s <;> simp [List.filter_cons, has, ih]

theorem keysPartition_aux {α κ : Type} [DecidableEq κ] (key : α → κ)
    (q : α → Bool) :
    ∀ (ks : List κ) (xs : List α), ks.Nodup → (∀ a ∈ xs, key a ∈ ks) →
      List.Perm
        ((ks.map (fun k => xs.filter (fun a => decide (key a = k)))).flatMap
          (fun g => g.filter q))
        (xs.filter q) := by
  intro ks
  induction ks with
  | nil =>
    intro xs _ hcov
    have hxs : xs = [] := by
      cases xs with
      | nil => rfl
      | cons a t => exact absurd (hcov a (by simp)) (by simp)
    subst hxs
    simp
  | cons k ks ih =>
    intro xs hnd hcov
    have hk_not : k ∉ ks := (List.nodup_cons.mp hnd).1
    have hnd' : ks.Nodup := (List.nodup_cons.mp hnd).2
    set xs' := xs.filter (fun a => ! decide (key a = k)) with hxs'
    have htail : ∀ k' ∈ ks,
        xs.filter (fun a => decide (key a = k')) =
          xs'.filter (fun a => decide (key a = k')) := by
      intro k' hk'
      have hkk : ¬ k' = k := fun h => hk_not (h ▸ hk')
      rw [hxs', List.filter_filter]
      apply List.filter_congr
      intro a _
      by_cases h : key a = k'
      · have : ¬ key a = k := fun hh => hkk (by rw [← h, hh])
        simp [h, this, hkk]
      · simp [h]
    have hmapeq :
        ks.map (fun k' => xs.filter (fun a => decide (key a = k'))) =
          ks.map (fun k' => xs'.filter (fun a => decide (key a = k'))) :=
      List.map_congr_left htail
    have hcov' : ∀ a ∈ xs', key a ∈ ks := by
      intro a ha
      have hmem := List.mem_filter.mp ha
      have h1 := hcov a hmem.1
      have h2 : ¬ key a = k := by
        have := hmem.2
        simp at this
        exact this
      simpa [h2] using h1
    have ihx := ih xs' hnd' hcov'
    have hsplit :
        List.Perm (xs.filter q)
          ((xs.filter (fun a => decide (key a = k))).filter q ++
            xs'.filter q) := by
      have hp := List.filter_append_perm (fun a => decide (key a = k)) xs
      have := (hp.filter q).symm
      rw [List.filter_append] at this
      exact this
    calc
      ((k :: ks).map (fun k' => xs.filter (fun a => decide (key a = k')))).flatMap
          (fun g => g.filter q)
        = (xs.filter (fun a => decide (key a = k))).filter q ++
            (ks.map (fun k' => xs'.filter (fun a => decide (key a = k')))).flatMap
              (fun g => g.filter q) := by
          simp only [List.map_cons, List.flatMap_cons, hmapeq]
      _ ~ (xs.filter (fun a => decide (key a = k))).filter q ++ xs'.filter q :=
          List.Perm.append_left _ ihx
      _ ~ xs.filter q := hsplit.symm

theorem bucketsBy_flatMap_filter {α κ : Type} [DecidableEq κ] (key : α → κ)
    (q : α → Bool) (xs : List α) :
    List.Perm ((bucketsBy key xs).flatMap (fun g => g.filter q))
      (xs.filter q) := by
  apply keysPartition_aux key q (firstKeys (xs.map key)) xs
    (nodup_firstKeys _)
  intro a ha
  exact mem_firstKeys.mpr (List.mem_map_of_mem key ha)

theorem flatMap_perm_congr {α β : Type} {L : List α} {f g : α → List β}
    (h : ∀ a ∈ L, List.Perm (f a) (g a)) :
    List.Perm (L.flatMap f) (L.flatMap g) := by
  induction L with
  | nil => simp
  | cons a t ih =>
    simp only [List.flatMap_cons]
    exact (h a (by simp)).append (ih (fun b hb => h b (by simp [hb])))

theorem flatMap_filter_small {α β : Type} (p : α → Bool) (f : α → List β)
    (L : List α) (h : ∀ a ∈ L, p a = false → f a = []) :
    (L.filter p).flatMap f = L.flatMap f := by
  induction L with
  | nil => rfl
  | cons a t ih =>
    have ht : ∀ b ∈ t, p b = false → f b = [] := fun b hb => h b (by simp [hb])
    cases hp : p a with
    | true => simp [List.filter_cons, hp, ih ht]
    | false => simp [List.filter_cons, hp, ih ht, h a (by simp) hp]

theorem flatMap_filter_as_cond {α : Type} (p : α → Bool)
    (cond : List α → Bool) (L : List (List α))
    (h : ∀ g ∈ L, g.filter p = (if cond g then g else [])) :
    L.flatMap (fun g => g.filter p) =
      (L.filter cond).flatMap (fun g => g) := by
  induction L with
  | nil => rfl
  | cons g t ih =>
    have ht : ∀ g' ∈ t, g'.filter p = (if cond g' then g' else []) :=
      fun g' hg' => h g' (by simp [hg'])
    cases hc : cond g with
    | true =>
      simp only [List.flatMap_cons, List.filter_cons, hc, ih ht]
      rw [h g (by simp), hc]
      simp
    | false =>
      simp only [List.flatMap_cons, List.filter_cons, hc, ih ht]
      rw [h g (by simp), hc]
      simp

theorem sizeGroups_shape {files : List FileRec} {g : List FileRec}
    (hg : g ∈ sizeGroups files) :
    ∃ s, g = files.filter (fun a => decide (a.size = s)) := by
  rcases mem_bucketsBy.mp hg with ⟨s, _, rfl⟩
  exact ⟨s, rfl⟩

theorem bucket_filter_eq (files : List FileRec) (s qk : Nat) :
    (files.filter (fun a => decide (a.size = s))).filter
        (fun a => decide (a.quickHash = qk)) =
      files.filter (fun x => decide (x.size = s ∧ x.quickHash = qk)) := by
  rw [List.filter_filter]
  apply List.filter_congr
  intro a _
  by_cases h1 : a.size = s <;> by_cases h2 : a.quickHash = qk <;>
    simp [h1, h2]

theorem sameBucket_filter_eq (files : List FileRec) {a : FileRec} {s qk : Nat}
    (hs : a.size = s) (hq : a.quickHash = qk) :
    files.filter (sameBucket a) =
      files.filter (fun x => decide (x.size = s ∧ x.quickHash = qk)) := by
  apply List.filter_congr
  intro x _
  simp [sameBucket, hs, hq]

theorem bucketCount_eq_quickGroup_length {files : List FileRec} {s qk : Nat}
    {a : FileRec} (hs : a.size = s) (hq : a.quickHash = qk) :
    bucketCount files a =
      ((files.filter (fun x => decide (x.size = s))).filter
        (fun x => decide (x.quickHash = qk))).length := by
  rw [bucket_filter_eq, bucketCount, List.countP_eq_length_filter,
    sameBucket_filter_eq files hs hq]

theorem quickGroup_filter_bigBucket {files : List FileRec} {s : Nat}
    {qg : List FileRec}
    (hqg : qg ∈ bucketsBy (fun f : FileRec => f.quickHash)
      (files.filter (fun a => decide (a.size = s)))) :
    qg.filter (bigBucket files) = (if 1 < qg.length then qg else []) := by
  rcases mem_bucketsBy.mp hqg with ⟨qk, _, rfl⟩
  set g := files.filter (fun a => decide (a.size = s)) with hg
  have hmem : ∀ a ∈ g.filter (fun x => decide (x.quickHash = qk)),
      bigBucket files a =
        decide (1 < (g.filter (fun x => decide (x.quickHash = qk))).length) := by
    intro a ha
    have h1 := List.mem_filter.mp ha
    have hqk : a.quickHash = qk := by simpa using h1.2
    have hsz : a.size = s := by
      have := List.mem_filter.mp h1.1
      simpa using this.2
    rw [bigBucket, bucketCount_eq_quickGroup_length hsz hqk]
  by_cases hbig : 1 < (g.filter (fun x => decide (x.quickHash = qk))).length
  · simp only [hbig, if_true]
    apply List.filter_eq_self.mpr
    intro a ha
    rw [hmem a ha]
    simpa using hbig
  · simp only [hbig, if_false]
    apply List.filter_eq_nil_iff.mpr
    intro a ha
    rw [hmem a ha]
    simpa using hbig

theorem flatMap_congr_mem {α β : Type} {L : List α} {f g : α → List β}
    (h : ∀ a ∈ L, f a = g a) : L.flatMap f = L.flatMap g := by
  induction L with
  | nil => rfl
  | cons a t ih =>
    simp only [List.flatMap_cons, h a (by simp),
      ih (fun b hb => h b (by simp [hb]))]

theorem survivors_perm (files : List FileRec) :
    List.Perm (survivors files) (files.filter (bigBucket files)) := by
  have step1 : ∀ g ∈ sizeGroups files,
      (bigQuickGroups g).flatMap (fun qg => qg) =
        (bucketsBy (fun f : FileRec => f.quickHash) g).flatMap
          (fun qg => qg.filter (bigBucket files)) := by
    intro g hg
    rcases sizeGroups_shape hg with ⟨s, rfl⟩
    rw [bigQuickGroups,
      ← flatMap_filter_as_cond (bigBucket files)
        (fun qg => decide (1 < qg.length))
        (bucketsBy (fun f : FileRec => f.quickHash)
          (files.filter (fun a => decide (a.size = s))))]
    intro qg hqg
    rw [quickGroup_filter_bigBucket hqg]
    by_cases h : 1 < qg.length <;> simp [h]
  have hsub : ∀ g ∈ potentialDuplicates files, g ∈ sizeGroups files := by
    intro g hg
    exact (List.mem_filter.mp hg).1
  have step2 : survivors files =
      (potentialDuplicates files).flatMap
        (fun g => (bucketsBy (fun f : FileRec => f.quickHash) g).flatMap
          (fun qg => qg.filter (bigBucket files))) := by
    rw [survivors]
    exact flatMap_congr_mem (fun g hg => step1 g (hsub g hg))
  have step3 : List.Perm
      ((potentialDuplicates files).flatMap
        (fun g => (bucketsBy (fun f : FileRec => f.quickHash) g).flatMap
          (fun qg => qg.filter (bigBucket files))))
      ((potentialDuplicates files).flatMap
        (fun g => g.filter (bigBucket files))) := by
    apply flatMap_perm_congr
    intro g _
    exact bucketsBy_flatMap_filter (fun f : FileRec => f.quickHash)
      (bigBucket files) g
  have hsmall : ∀ g ∈ sizeGroups files,
      (decide (1 < g.length)) = false → g.filter (bigBucket files) = [] := by
    intro g hg hlen
    rcases sizeGroups_shape hg with ⟨s, rfl⟩
    apply List.filter_eq_nil_iff.mpr
    intro a ha
    have hsz : a.size = s := by
      have := List.mem_filter.mp ha
      simpa using this.2
    have hcount : bucketCount files a ≤
        (files.filter (fun x => decide (x.size = s))).length := by
      rw [bucketCount_eq_quickGroup_length hsz rfl]
      exact List.length_filter_le _ _
    have hlen' : (files.filter (fun x => decide (x.size = s))).length ≤ 1 := by
      simpa using hlen
    simp only [bigBucket, decide_eq_true_eq]
    omega
  have step4 :
      (potentialDuplicates files).flatMap (fun g => g.filter (bigBucket files)) =
        (sizeGroups files).flatMap (fun g => g.filter (bigBucket files)) :=
    flatMap_filter_small _ _ _ hsmall
  have step5 : List.Perm
      ((sizeGroups files).flatMap (fun g => g.filter (bigBucket files)))
      (files.filter (bigBucket files)) :=
    bucketsBy_flatMap_filter (fun f : FileRec => f.size) (bigBucket files) files
  calc
    (survivors files) = _ := step2
    _ ~ _ := step3
    _ = _ := step4
    _ ~ _ := step5

theorem updateFullHash_fields (hashFn : ByteSeq → Nat) (f : FileRec) :
    (updateFullHash hashFn f).path = f.path ∧
    (updateFullHash hashFn f).size = f.size ∧
    (updateFullHash hashFn f).quickHash = f.quickHash ∧
    (updateFullHash hashFn f).content = f.content ∧
    (updateFullHash hashFn f).hash = some (calculateHash hashFn f.content) :=
  ⟨rfl, rfl, rfl, rfl, rfl⟩

theorem pushes_eq_map (hashFn : ByteSeq → Nat) (files : List FileRec) :
    pushes hashFn files = (survivors files).map (updateFullHash hashFn) := by
  simp [pushes, survivors, List.map_flatMap]

theorem pushes_perm (hashFn : ByteSeq → Nat) (files : List FileRec) :
    List.Perm (pushes hashFn files)
      ((files.filter (bigBucket files)).map (updateFullHash hashFn)) := by
  rw [pushes_eq_map]
  exact (survivors_perm files).map _

theorem mem_survivors {files : List FileRec} {f : FileRec} :
    f ∈ survivors files ↔ f ∈ files ∧ bigBucket files f = true := by
  rw [(survivors_perm files).mem_iff, List.mem_filter]

theorem mem_pushes {hashFn : ByteSeq → Nat} {files : List FileRec}
    {a : FileRec} :
    a ∈ pushes hashFn files ↔
      ∃ f, f ∈ files ∧ bigBucket files f = true ∧
        a = updateFullHash hashFn f := by
  rw [pushes_eq_map, List.mem_map]
  constructor
  · rintro ⟨f, hf, rfl⟩
    rcases mem_survivors.mp hf with ⟨h1, h2⟩
    exact ⟨f, h1, h2, rfl⟩
  · rintro ⟨f, h1, h2, rfl⟩
    exact ⟨f, mem_survivors.mpr ⟨h1, h2⟩, rfl⟩

theorem hash_of_mem_pushes {hashFn : ByteSeq → Nat} {files : List FileRec}
    {a : FileRec} (ha : a ∈ pushes hashFn files) :
    a.hash = some (calculateHash hashFn a.content) := by
  rcases mem_pushes.mp ha with ⟨f, _, _, rfl⟩
  rfl

theorem mem_duplicateGroupsUnsorted {hashFn : ByteSeq → Nat}
    {files : List FileRec} {g : List FileRec} :
    g ∈ duplicateGroupsUnsorted hashFn files ↔
      (∃ k, k ∈ firstKeys ((pushes hashFn files).map (fun f : FileRec => f.hash)) ∧
        g = (pushes hashFn files).filter
          (fun a => decide (a.hash = k))) ∧ 1 < g.length := by
  rw [duplicateGroupsUnsorted, List.mem_filter, mem_bucketsBy]
  simp

theorem mem_findDuplicatesGroups {hashFn : ByteSeq → Nat}
    {files : List FileRec} {g : List FileRec} :
    g ∈ findDuplicatesGroups hashFn files ↔
      g ∈ duplicateGroupsUnsorted hashFn files := by
  rw [findDuplicatesGroups,
    (sortRanked_perm (fun g => (repSize g : Int)) _).mem_iff]

/-- C1: every DuplicateGroup returned by findDuplicates has at least two
members, any two members carry the same full content digest (re-hashing
the content stored at both members' paths yields equal digests), and no
member is left with a null fullHash. -/
theorem claim1_groups_sound (hashFn : ByteSeq → Nat) (files : List FileRec)
    (g : List FileRec) (a b : FileRec)
    (hg : g ∈ findDuplicatesGroups hashFn files) (ha : a ∈ g) (hb : b ∈ g) :
    2 ≤ g.length ∧
      calculateHash hashFn a.content = calculateHash hashFn b.content ∧
      ¬ a.hash = none := by
  rcases mem_duplicateGroupsUnsorted.mp (mem_findDuplicatesGroups.mp hg) with
    ⟨⟨k, _, rfl⟩, hlen⟩
  have hmem := List.mem_filter.mp ha
  have hmemb := List.mem_filter.mp hb
  have hka : a.hash = k := by simpa using hmem.2
  have hkb : b.hash = k := by simpa using hmemb.2
  have hha := hash_of_mem_pushes hmem.1
  have hhb := hash_of_mem_pushes hmemb.1
  refine ⟨by omega, ?_, ?_⟩
  · have : some (calculateHash hashFn a.content) =
        some (calculateHash hashFn b.content) := by
      rw [← hha, ← hhb, hka, hkb]
    exact Option.some.inj this
  · rw [hha]
    simp

theorem claim1_witness :
    2 ≤ ([⟨"d/a", "a", 1, 0, 0, [1], 7, some 1⟩,
          ⟨"d/b", "b", 1, 0, 0, [1], 7, some 1⟩] : List FileRec).length ∧
      calculateHash lenHash (FileRec.content ⟨"d/a", "a", 1, 0, 0, [1], 7, some 1⟩) =
        calculateHash lenHash (FileRec.content ⟨"d/b", "b", 1, 0, 0, [1], 7, some 1⟩) ∧
      ¬ (FileRec.hash ⟨"d/a", "a", 1, 0, 0, [1], 7, some 1⟩) = none :=
  claim1_groups_sound lenHash [recA, recB]
    [⟨"d/a", "a", 1, 0, 0, [1], 7, some 1⟩,
     ⟨"d/b", "b", 1, 0, 0, [1], 7, some 1⟩]
    ⟨"d/a", "a", 1, 0, 0, [1], 7, some 1⟩
    ⟨"d/b", "b", 1, 0, 0, [1], 7, some 1⟩
    (by decide) (by decide) (by decide)

/-- C3: the quick digest covers exactly the first min(size, 65536) bytes
of the file, it never depends on any byte past index 65535, and for a
file smaller than 65536 bytes it coincides with the correctly computed
full digest of that file. -/
theorem claim3_quick_digest (hashFn : ByteSeq → Nat) (c c' : ByteSeq) :
    calculateQuickHash hashFn c = hashFn (c.take (min c.length quickHashLimit)) ∧
      (c.take quickHashLimit = c'.take quickHashLimit →
        calculateQuickHash hashFn c = calculateQuickHash hashFn c') ∧
      (c.length < quickHashLimit →
        calculateQuickHash hashFn c = calculateHash hashFn c) := by
  refine ⟨?_, ?_, ?_⟩
  · by_cases h : c.length ≤ quickHashLimit
    · rw [calculateQuickHash, List.take_of_length_le h,
        Nat.min_eq_left h, List.take_length]
    · rw [calculateQuickHash, Nat.min_eq_right (by omega)]
  · intro h
    rw [calculateQuickHash, calculateQuickHash, h]
  · intro h
    rw [calculateQuickHash, calculateHash, List.take_of_length_le (by omega)]

theorem claim3_witness :
    (calculateQuickHash lenHash [9] =
        lenHash (List.take (min (List.length [9]) quickHashLimit) [9])) ∧
      (calculateQuickHash lenHash [9] = calculateQuickHash lenHash [9]) ∧
      (calculateQuickHash lenHash [9] = calculateHash lenHash [9]) := by
  have h := claim3_quick_digest lenHash [9] [9]
  exact ⟨h.1, h.2.1 rfl, h.2.2 (by decide)⟩

/-- C6: the final group sequence is sorted by descending representative
size (the size of each group's first member), ties are broken by
discovery order (the order in which the duplicates map acquired its
keys), and the output is a pure function of the input records. -/
theorem claim6_output_ordering (hashFn : ByteSeq → Nat)
    (files : List FileRec) :
    (findDuplicatesGroups hashFn files).Pairwise
        (fun g1 g2 => repSize g2 ≤ repSize g1) ∧
      ∀ s : Nat,
        (findDuplicatesGroups hashFn files).filter
            (fun g => decide (repSize g = s)) =
          (duplicateGroupsUnsorted hashFn files).filter
            (fun g => decide (repSize g = s)) := by
  constructor
  · have h := sortRanked_sorted (fun g => (repSize g : Int))
      (duplicateGroupsUnsorted hashFn files)
    exact h.imp (fun hle => by exact_mod_cast hle)
  · intro s
    have h := sortRanked_filter_rank (fun g => (repSize g : Int)) (s : Int)
      (duplicateGroupsUnsorted hashFn files)
    have hconv : ∀ l : List (List FileRec),
        l.filter (fun g => decide ((repSize g : Int) = (s : Int))) =
          l.filter (fun g => decide (repSize g = s)) := by
      intro l
      apply List.filter_congr
      intro g _
      by_cases hg : repSize g = s
      · simp [hg]
      · have : ¬ (repSize g : Int) = (s : Int) := by exact_mod_cast hg
        simp [hg, this]
    rw [← hconv, ← hconv, findDuplicatesGroups]
    exact h

theorem listEnc_injective : Function.Injective listEnc := by
  intro x
  induction x with
  | nil =>
    intro y h
    cases y with
    | nil => rfl
    | cons c u => simp [listEnc] at h
  | cons b t ih =>
    intro y h
    cases y with
    | nil => simp [listEnc] at h
    | cons c u =>
      simp only [listEnc, Nat.add_right_cancel_iff] at h
      rcases Nat.pair_eq_pair.mp h with ⟨h1, h2⟩
      rw [h1, ih h2]

/-- C2: staged-funnel correctness. With a collision-free digest and
records as the scanner produces them, two grouped files never differ in
size, never differ in quickHash, and the full digest is invoked only for
files whose size+quickHash bucket holds at least two members (never for a
singleton bucket). -/
theorem claim2_staged_funnel (hashFn : ByteSeq → Nat)
    (hinj : Function.Injective hashFn) (files : List FileRec)
    (hwf : ∀ f ∈ files, WellFormed hashFn f)
    (g : List FileRec) (a b f : FileRec)
    (hg : g ∈ findDuplicatesGroups hashFn files) (ha : a ∈ g) (hb : b ∈ g)
    (hf : f ∈ survivors files) :
    (a.size = b.size ∧ a.quickHash = b.quickHash) ∧
      2 ≤ bucketCount files f := by
  constructor
  · rcases mem_duplicateGroupsUnsorted.mp (mem_findDuplicatesGroups.mp hg) with
      ⟨⟨k, _, rfl⟩, _⟩
    have hmema := List.mem_filter.mp ha
    have hmemb := List.mem_filter.mp hb
    have hka : a.hash = k := by simpa using hmema.2
    have hkb : b.hash = k := by simpa using hmemb.2
    have hha := hash_of_mem_pushes hmema.1
    have hhb := hash_of_mem_pushes hmemb.1
    have hcontent : a.content = b.content := by
      apply hinj
      have : some (calculateHash hashFn a.content) =
          some (calculateHash hashFn b.content) := by
        rw [← hha, ← hhb, hka, hkb]
      exact Option.some.inj this
    rcases mem_pushes.mp hmema.1 with ⟨fa, hfa, _, rfl⟩
    rcases mem_pushes.mp hmemb.1 with ⟨fb, hfb, _, rfl⟩
    have hwa := hwf fa hfa
    have hwb := hwf fb hfb
    have hca : (updateFullHash hashFn fa).content = fa.content := rfl
    have hcb : (updateFullHash hashFn fb).content = fb.content := rfl
    have hcc : fa.content = fb.content := by
      rw [← hca, ← hcb, hcontent]
    constructor
    · show fa.size = fb.size
      rw [hwa.1, hwb.1, hcc]
    · show fa.quickHash = fb.quickHash
      rw [hwa.2, hwb.2, calculateQuickHash, calculateQuickHash, hcc]
  · have := (mem_survivors.mp hf).2
    simp only [bigBucket, decide_eq_true_eq] at this
    omega

theorem claim2_witness :
    ((FileRec.size ⟨"d/a", "a", 1, 0, 0, [1], 3, some 3⟩ =
        FileRec.size ⟨"d/b", "b", 1, 0, 0, [1], 3, some 3⟩ ∧
      FileRec.quickHash ⟨"d/a", "a", 1, 0, 0, [1], 3, some 3⟩ =
        FileRec.quickHash ⟨"d/b", "b", 1, 0, 0, [1], 3, some 3⟩) ∧
      2 ≤ bucketCount
        [⟨"d/a", "a", 1, 0, 0, [1], 3, none⟩,
         ⟨"d/b", "b", 1, 0, 0, [1], 3, none⟩]
        ⟨"d/a", "a", 1, 0, 0, [1], 3, none⟩) :=
  claim2_staged_funnel listEnc listEnc_injective
    [⟨"d/a", "a", 1, 0, 0, [1], 3, none⟩,
     ⟨"d/b", "b", 1, 0, 0, [1], 3, none⟩]
    (by decide)
    [⟨"d/a", "a", 1, 0, 0, [1], 3, some 3⟩,
     ⟨"d/b", "b", 1, 0, 0, [1], 3, some 3⟩]
    ⟨"d/a", "a", 1, 0, 0, [1], 3, some 3⟩
    ⟨"d/b", "b", 1, 0, 0, [1], 3, some 3⟩
    ⟨"d/a", "a", 1, 0, 0, [1], 3, none⟩
    (by decide) (by decide) (by decide) (by decide)

theorem scanEntry_of_fails (opts : ScanOpts) (dir : String) {t : FsTree}
    (h : entryFails t) : scanEntry opts dir t = [] := by
  cases t with
  | file n data =>
    cases data with
    | none =>
      rw [scanEntry]
      split <;> rfl
    | some d => exact absurd h (by simp [entryFails])
  | dir n listing =>
    cases listing with
    | none =>
      rw [scanEntry]
      split
      · rfl
      · split <;> rfl
    | some f => exact absurd h (by simp [entryFails])

theorem scanForest_append (opts : ScanOpts) (dir : String) :
    ∀ (f1 f2 : FsForest),
      scanForest opts dir (f1.append f2) =
        scanForest opts dir f1 ++ scanForest opts dir f2
  | .nil, f2 => by simp [FsForest.append, scanForest]
  | .cons t rest, f2 => by
    simp [FsForest.append, scanForest, scanForest_append opts dir rest f2]

theorem scanForest_prune (opts : ScanOpts) :
    ∀ (dir : String) (f : FsForest),
      scanForest opts dir (pruneForest f) = scanForest opts dir f
  | dir, .nil => rfl
  | dir, .cons (.file n none) rest => by
    rw [pruneForest, scanForest, scanForest_prune opts dir rest,
      scanEntry_of_fails opts dir (by simp [entryFails])]
    simp
  | dir, .cons (.file n (some d)) rest => by
    rw [pruneForest, scanForest, scanForest, scanForest_prune opts dir rest]
  | dir, .cons (.dir n none) rest => by
    rw [pruneForest, scanForest, scanForest_prune opts dir rest,
      scanEntry_of_fails opts dir (by simp [entryFails])]
    simp
  | dir, .cons (.dir n (some f')) rest => by
    rw [pruneForest, scanForest, scanForest, scanForest_prune opts dir rest]
    congr 1
    rw [scanEntry, scanEntry]
    split
    · rfl
    · split
      · rw [scanDir, scanDir, scanForest_prune opts (pathJoin dir n) f']
      · rfl

/-- C8: partial-failure policy of the walk. A failing entry contributes
nothing but removes nothing else: it can be cut out of its directory's
entry list without changing the other records; pruning every failing file
and every unreadable subtree leaves the scan output unchanged; and with a
readable root the engine never aborts, returning exactly the groups
classifiable from the successfully read records. -/
theorem claim8_partial_failure (opts : ScanOpts) (dir : String) :
    (∀ t, entryFails t → scanEntry opts dir t = []) ∧
      (∀ f1 t f2, entryFails t →
        scanForest opts dir (f1.append (.cons t f2)) =
          scanForest opts dir f1 ++ scanForest opts dir f2) ∧
      (∀ f, scanForest opts dir (pruneForest f) = scanForest opts dir f) ∧
      (∀ f, findDuplicatesFrom opts dir (some f) =
        .ok (findDuplicatesGroups opts.hashFn (scanForest opts dir f))) := by
  refine ⟨fun t ht => scanEntry_of_fails opts dir ht, ?_, ?_, ?_⟩
  · intro f1 t f2 ht
    rw [scanForest_append, scanForest, scanEntry_of_fails opts dir ht]
    simp
  · intro f
    exact scanForest_prune opts dir f
  · intro f
    rfl

mutual
theorem eventsEntry_not_excluded (opts : ScanOpts) :
    ∀ (dir : String) (t : FsTree) (e : FsEvent),
      e ∈ eventsEntry opts dir t → isExcluded opts e.path = false
  | dir, .file n data, e => by
    rw [eventsEntry]
    split
    · simp
    · rename_i hx
      intro he
      have hx' : isExcluded opts (pathJoin dir n) = false := by
        simpa using hx
      have : e = FsEvent.statFile (pathJoin dir n) ∨
          e = FsEvent.readQuick (pathJoin dir n) := by
        simpa using he
      rcases this with rfl | rfl
      · exact hx'
      · exact hx'
  | dir, .dir n none, e => by
    rw [eventsEntry]
    split
    · simp
    · rename_i hx
      split
      · intro he
        have : e = FsEvent.readdir (pathJoin dir n) := by simpa using he
        subst this
        simpa using hx
      · simp
  | dir, .dir n (some f'), e => by
    rw [eventsEntry]
    split
    · simp
    · rename_i hx
      split
      · intro he
        rcases List.mem_cons.mp he with rfl | he'
        · show isExcluded opts (pathJoin dir n) = false
          simpa using hx
        · exact eventsForest_not_excluded opts (pathJoin dir n) f' e he'
      · simp

theorem eventsForest_not_excluded (opts : ScanOpts) :
    ∀ (dir : String) (f : FsForest) (e : FsEvent),
      e ∈ eventsForest opts dir f → isExcluded opts e.path = false
  | dir, .nil, e => by
    rw [eventsForest]
    simp
  | dir, .cons t rest, e => by
    rw [eventsForest]
    intro he
    rcases List.mem_append.mp he with he' | he'
    · exact eventsEntry_not_excluded opts dir t e he'
    · exact eventsForest_not_excluded opts dir rest e he'
end

/-- C9: exclusion filtering. An entry whose path (relative to the
caller's working directory) matches an exclude pattern is skipped
silently: it produces no record and no filesystem touch at all (no stat,
no hash read, no readdir, no descent); consequently no touch of the whole
walk ever lands on an excluded path. -/
theorem claim9_exclusion (opts : ScanOpts) (dir : String) :
    (∀ t, isExcluded opts (pathJoin dir t.entryName) = true →
        scanEntry opts dir t = [] ∧ eventsEntry opts dir t = []) ∧
      (∀ f e, e ∈ eventsForest opts dir f → isExcluded opts e.path = false) := by
  constructor
  · intro t ht
    cases t with
    | file n data =>
      rw [FsTree.entryName] at ht
      cases data with
      | none => rw [scanEntry, eventsEntry]
                exact ⟨by simp [ht], by simp [ht]⟩
      | some d => rw [scanEntry, eventsEntry]
                  exact ⟨by simp [ht], by simp [ht]⟩
    | dir n listing =>
      rw [FsTree.entryName] at ht
      cases listing with
      | none => rw [scanEntry, eventsEntry]
                exact ⟨by simp [ht], by simp [ht]⟩
      | some f' => rw [scanEntry, eventsEntry]
                   exact ⟨by simp [ht], by simp [ht]⟩
  · intro f e he
    exact eventsForest_not_excluded opts dir f e he

theorem claim8_witness :
    scanEntry opts0 "d" (.file "x" none) = [] ∧
      scanForest opts0 "d"
        ((FsForest.cons (.file "a" (some ⟨[1], 0, 0⟩)) .nil).append
          (.cons (.dir "bad" none)
            (.cons (.file "b" (some ⟨[2], 0, 0⟩)) .nil))) =
        scanForest opts0 "d" (.cons (.file "a" (some ⟨[1], 0, 0⟩)) .nil) ++
          scanForest opts0 "d" (.cons (.file "b" (some ⟨[2], 0, 0⟩)) .nil) :=
  ⟨(claim8_partial_failure opts0 "d").1 (.file "x" none) trivial,
    (claim8_partial_failure opts0 "d").2.1
      (.cons (.file "a" (some ⟨[1], 0, 0⟩)) .nil) (.dir "bad" none)
      (.cons (.file "b" (some ⟨[2], 0, 0⟩)) .nil) trivial⟩

theorem claim9_witness :
    (scanEntry opts0 "" (.file "skip" (some ⟨[1], 0, 0⟩)) = [] ∧
      eventsEntry opts0 "" (.file "skip" (some ⟨[1], 0, 0⟩)) = []) ∧
      isExcluded opts0
        (FsEvent.path (.statFile "/keep")) = false :=
  ⟨(claim9_exclusion opts0 "").1 (.file "skip" (some ⟨[1], 0, 0⟩))
      (by decide),
    (claim9_exclusion opts0 "").2
      (.cons (.file "keep" (some ⟨[1], 0, 0⟩)) .nil)
      (.statFile "/keep") (by decide)⟩

theorem scanForest_reorder (opts : ScanOpts) {f1 f2 : FsForest}
    (h : ForestReorder f1 f2) :
    ∀ dir, List.Perm (scanForest opts dir f1) (scanForest opts dir f2) := by
  refine @ForestReorder.rec
    (fun t1 t2 _ => ∀ dir,
      List.Perm (scanEntry opts dir t1) (scanEntry opts dir t2))
    (fun g1 g2 _ => ∀ dir,
      List.Perm (scanForest opts dir g1) (scanForest opts dir g2))
    ?_ ?_ ?_ ?_ ?_ ?_ ?_ f1 f2 h
  · intro n d dir
    exact List.Perm.refl _
  · intro n dir
    exact List.Perm.refl _
  · intro n g1 g2 _ ih dir
    rw [scanEntry, scanEntry, scanDir, scanDir]
    split
    · exact List.Perm.refl _
    · split
      · exact ih (pathJoin dir n)
      · exact List.Perm.refl _
  · intro dir
    exact List.Perm.refl _
  · intro t1 t2 g1 g2 _ _ iht ihf dir
    rw [scanForest, scanForest]
    exact (iht dir).append (ihf dir)
  · intro t1 t2 g dir
    rw [scanForest, scanForest, scanForest, scanForest,
      ← List.append_assoc, ← List.append_assoc]
    exact (List.perm_append_comm).append_right _
  · intro g1 g2 g3 _ _ ih1 ih2 dir
    exact (ih1 dir).trans (ih2 dir)

theorem bigBucket_congr {l1 l2 : List FileRec} (h : List.Perm l1 l2) :
    bigBucket l1 = bigBucket l2 := by
  funext f
  simp [bigBucket, bucketCount, h.countP_eq]

theorem pushes_perm_congr (hashFn : ByteSeq → Nat) {l1 l2 : List FileRec}
    (h : List.Perm l1 l2) :
    List.Perm (pushes hashFn l1) (pushes hashFn l2) := by
  refine (pushes_perm hashFn l1).trans (List.Perm.trans ?_
    (pushes_perm hashFn l2).symm)
  rw [bigBucket_congr h]
  exact (h.filter _).map _

theorem dupGroups_family_perm (hashFn : ByteSeq → Nat)
    {l1 l2 : List FileRec} (h : List.Perm l1 l2) :
    List.Perm ((duplicateGroupsUnsorted hashFn l1).map pathMultiset)
      ((duplicateGroupsUnsorted hashFn l2).map pathMultiset) := by
  have hpush := pushes_perm_congr hashFn h
  have hkey : ∀ k : Option Nat,
      List.Perm
        ((pushes hashFn l1).filter (fun a => decide (a.hash = k)))
        ((pushes hashFn l2).filter (fun a => decide (a.hash = k))) :=
    fun k => hpush.filter _
  have hks : List.Perm
      (firstKeys ((pushes hashFn l1).map (fun f : FileRec => f.hash)))
      (firstKeys ((pushes hashFn l2).map (fun f : FileRec => f.hash))) := by
    rw [List.perm_ext_iff_of_nodup (nodup_firstKeys _) (nodup_firstKeys _)]
    intro k
    rw [mem_firstKeys, mem_firstKeys, (hpush.map _).mem_iff]
  have hexpand : ∀ l : List FileRec,
      (duplicateGroupsUnsorted hashFn l).map pathMultiset =
        ((firstKeys ((pushes hashFn l).map (fun f : FileRec => f.hash))).filter
          (fun k => decide
            (1 < ((pushes hashFn l).filter
              (fun a => decide (a.hash = k))).length))).map
          (fun k => pathMultiset
            ((pushes hashFn l).filter (fun a => decide (a.hash = k)))) := by
    intro l
    rw [duplicateGroupsUnsorted, bucketsBy, List.filter_map, List.map_map]
    rfl
  rw [hexpand, hexpand]
  have hcond : ∀ k : Option Nat,
      (decide (1 < ((pushes hashFn l1).filter
          (fun a => decide (a.hash = k))).length)) =
        (decide (1 < ((pushes hashFn l2).filter
          (fun a => decide (a.hash = k))).length)) := by
    intro k
    rw [(hkey k).length_eq]
  have hfun : ∀ k : Option Nat,
      pathMultiset ((pushes hashFn l1).filter (fun a => decide (a.hash = k))) =
        pathMultiset ((pushes hashFn l2).filter (fun a => decide (a.hash = k))) := by
    intro k
    rw [pathMultiset, pathMultiset]
    exact Multiset.coe_eq_coe.mpr ((hkey k).map _)
  have hperm2 := (hks.filter (fun k => decide
    (1 < ((pushes hashFn l1).filter (fun a => decide (a.hash = k))).length))).map
    (fun k => pathMultiset
      ((pushes hashFn l1).filter (fun a => decide (a.hash = k))))
  refine hperm2.trans ?_
  rw [List.filter_congr (fun k _ => hcond k)]
  rw [List.map_congr_left (fun k _ => hfun k)]

/-- C7: idempotence and traversal-order independence. Scanning the same
unchanged tree with directory entries listed in any other order produces
groups with exactly the same path membership (the family of path
multisets of the final groups is identical). -/
theorem claim7_idempotent (opts : ScanOpts) (dir : String)
    (f1 f2 : FsForest) (h : ForestReorder f1 f2) :
    (((findDuplicatesGroups opts.hashFn (scanForest opts dir f1)).map
        pathMultiset : List (Multiset String)) : Multiset (Multiset String)) =
      (((findDuplicatesGroups opts.hashFn (scanForest opts dir f2)).map
        pathMultiset : List (Multiset String)) : Multiset (Multiset String)) := by
  have hscan := scanForest_reorder opts h dir
  apply Multiset.coe_eq_coe.mpr
  have hs1 : List.Perm
      ((findDuplicatesGroups opts.hashFn (scanForest opts dir f1)).map
        pathMultiset)
      ((duplicateGroupsUnsorted opts.hashFn (scanForest opts dir f1)).map
        pathMultiset) :=
    (sortRanked_perm _ _).map _
  have hs2 : List.Perm
      ((findDuplicatesGroups opts.hashFn (scanForest opts dir f2)).map
        pathMultiset)
      ((duplicateGroupsUnsorted opts.hashFn (scanForest opts dir f2)).map
        pathMultiset) :=
    (sortRanked_perm _ _).map _
  exact hs1.trans ((dupGroups_family_perm opts.hashFn hscan).trans hs2.symm)

mutual
theorem treeReorder_refl : ∀ t : FsTree, TreeReorder t t
  | .file n d => .file n d
  | .dir n none => .dirFail n
  | .dir n (some f') => .dirOk n (forestReorder_refl f')

theorem forestReorder_refl : ∀ f : FsForest, ForestReorder f f
  | .nil => .nil
  | .cons t rest => .cons (treeReorder_refl t) (forestReorder_refl rest)
end

theorem claim7_witness :
    (((findDuplicatesGroups opts0.hashFn (scanForest opts0 "d"
        (.cons (.file "a" (some ⟨[1], 0, 0⟩))
          (.cons (.file "b" (some ⟨[1], 0, 0⟩)) .nil)))).map
        pathMultiset : List (Multiset String)) : Multiset (Multiset String)) =
      (((findDuplicatesGroups opts0.hashFn (scanForest opts0 "d"
        (.cons (.file "b" (some ⟨[1], 0, 0⟩))
          (.cons (.file "a" (some ⟨[1], 0, 0⟩)) .nil)))).map
        pathMultiset : List (Multiset String)) : Multiset (Multiset String)) :=
  claim7_idempotent opts0 "d" _ _
    (ForestReorder.swap (.file "a" (some ⟨[1], 0, 0⟩))
      (.file "b" (some ⟨[1], 0, 0⟩)) .nil)

theorem addFold_state (sid : Nat) :
    ∀ (rs : List FileRec) (db : ScanDB),
      (rs.foldl (fun d r => ScanDB.addFile d sid r) db).files =
          db.files ++
            (rs.enumFrom db.nextFileId).map (fun pr => rowOfRecord sid pr.1 pr.2) ∧
        (rs.foldl (fun d r => ScanDB.addFile d sid r) db).scans = db.scans ∧
        (rs.foldl (fun d r => ScanDB.addFile d sid r) db).nextFileId =
          db.nextFileId + rs.length := by
  intro rs
  induction rs with
  | nil => intro db; simp
  | cons r rs ih =>
    intro db
    have h := ih (ScanDB.addFile db sid r)
    simp only [List.foldl_cons]
    refine ⟨?_, ?_, ?_⟩
    · rw [h.1]
      simp only [ScanDB.addFile, List.enumFrom]
      rw [List.append_assoc]
      rfl
    · rw [h.2.1]
      rfl
    · rw [h.2.2]
      have hn : (ScanDB.addFile db sid r).nextFileId = db.nextFileId + 1 := rfl
      rw [hn]
      simp only [List.length_cons]
      omega

theorem markRow_path (d : Nat) (row : FileRow) :
    (markRow d row).path = row.path := rfl

theorem updFold_files (hashFn : ByteSeq → Nat) :
    ∀ (S : List FileRec) (db : ScanDB),
      (db.files.map (fun r => r.path)).Nodup →
      (db.files.map (fun r => r.id)).Nodup →
      (S.map (fun f => f.path)).Nodup →
      (S.foldl (updStep hashFn) db).files =
        db.files.map (applyHashUpdates hashFn S) := by
  intro S
  induction S with
  | nil =>
    intro db _ _ _
    have : applyHashUpdates hashFn [] = fun row => row := by
      funext row
      rw [applyHashUpdates, List.find?_nil]
    rw [List.foldl_nil, this, List.map_id']
  | cons f S ih =>
    intro db hpath hid hS
    have hSpathtail : (S.map (fun f => f.path)).Nodup :=
      (List.nodup_cons.mp (by simpa using hS)).2
    have hfS : f.path ∉ S.map (fun x => x.path) :=
      (List.nodup_cons.mp (by simpa using hS)).1
    have hfS' : ∀ x ∈ S, ¬ x.path = f.path := by
      intro x hx hxe
      exact hfS (hxe ▸ List.mem_map_of_mem (fun x => x.path) hx)
    simp only [List.foldl_cons]
    cases hfind : db.files.find? (fun r => decide (r.path = f.path)) with
    | none =>
      have hstep : updStep hashFn db f = db := by
        rw [updStep, ScanDB.findIdByPath, hfind]
        rfl
      rw [hstep, ih db hpath hid hSpathtail]
      apply List.map_congr_left
      intro row hrow
      have hnp : ¬ row.path = f.path := by
        have := List.find?_eq_none.mp hfind row hrow
        simpa using this
      rw [applyHashUpdates, applyHashUpdates]
      have : (f :: S).find? (fun x => decide (x.path = row.path)) =
          S.find? (fun x => decide (x.path = row.path)) := by
        rw [List.find?_cons]
        have : ¬ f.path = row.path := fun h => hnp (h.symm ▸ rfl)
        simp [this]
      rw [this]
    | some r0 =>
      have hr0mem : r0 ∈ db.files := List.mem_of_find?_eq_some hfind
      have hr0path : r0.path = f.path := by
        have := List.find?_some hfind
        simpa using this
      have hpinj : ∀ x ∈ db.files, ∀ y ∈ db.files,
          x.path = y.path → x = y := by
        intro x hx y hy hxy
        exact List.inj_on_of_nodup_map hpath hx hy hxy
      have hiinj : ∀ x ∈ db.files, ∀ y ∈ db.files, x.id = y.id → x = y := by
        intro x hx y hy hxy
        exact List.inj_on_of_nodup_map hid hx hy hxy
      have hstep : updStep hashFn db f =
          ScanDB.updateFileHash db r0.id (calculateHash hashFn f.content)
            (calculateHash hashFn f.content) := by
        rw [updStep, ScanDB.findIdByPath, hfind]
        rfl
      set dig := calculateHash hashFn f.content with hdig
      have hfiles' : (updStep hashFn db f).files =
          db.files.map (fun row =>
            if row.path = f.path then markRow dig row else row) := by
        rw [hstep, ScanDB.updateFileHash]
        apply List.map_congr_left
        intro row hrow
        by_cases hidr : row.id = r0.id
        · have : row = r0 := hiinj row hrow r0 hr0mem hidr
          subst this
          simp [hr0path, markRow]
        · have hnp : ¬ row.path = f.path := by
            intro hpe
            exact hidr (congrArg FileRow.id
              (hpinj row hrow r0 hr0mem (hpe.trans hr0path.symm)))
          simp [hidr, hnp]
      have hpath' : ((updStep hashFn db f).files.map (fun r => r.path)).Nodup := by
        rw [hfiles', List.map_map]
        have : ((fun r : FileRow => r.path) ∘ fun row =>
            if row.path = f.path then markRow dig row else row) =
            fun row : FileRow => row.path := by
          funext row
          by_cases h : row.path = f.path <;> simp [h, markRow_path]
        rw [this]
        exact hpath
      have hid' : ((updStep hashFn db f).files.map (fun r => r.id)).Nodup := by
        rw [hfiles', List.map_map]
        have : ((fun r : FileRow => r.id) ∘ fun row =>
            if row.path = f.path then markRow dig row else row) =
            fun row : FileRow => row.id := by
          funext row
          by_cases h : row.path = f.path <;> simp [h, markRow]
        rw [this]
        exact hid
      rw [ih (updStep hashFn db f) hpath' hid' hSpathtail, hfiles',
        List.map_map]
      apply List.map_congr_left
      intro row hrow
      simp only [Function.comp]
      by_cases hp : row.path = f.path
      · simp only [hp, if_true]
        rw [applyHashUpdates, applyHashUpdates]
        have h1 : (markRow dig row).path = row.path := rfl
        have hnone : S.find? (fun x => decide (x.path = (markRow dig row).path)) =
            none := by
          apply List.find?_eq_none.mpr
          intro x hx
          have := hfS' x hx
          simp [h1, hp, this]
        rw [hnone]
        have hcons : (f :: S).find? (fun x => decide (x.path = row.path)) =
            some f := by
          rw [List.find?_cons]
          simp [hp]
        rw [hcons]
      · simp only [hp, if_false]
        rw [applyHashUpdates, applyHashUpdates]
        have : (f :: S).find? (fun x => decide (x.path = row.path)) =
            S.find? (fun x => decide (x.path = row.path)) := by
          rw [List.find?_cons]
          have : ¬ f.path = row.path := fun h => hp (h.symm ▸ rfl)
          simp [this]
        rw [this]

theorem enumRows_path (records : List FileRec) (sid : Nat) :
    (((records.enumFrom 1).map (fun pr => rowOfRecord sid pr.1 pr.2)).map
      (fun r => r.path)) = records.map (fun f => f.path) := by
  rw [List.map_map]
  have : ((fun r : FileRow => r.path) ∘ fun pr : Nat × FileRec =>
      rowOfRecord sid pr.1 pr.2) =
      (fun f : FileRec => f.path) ∘ Prod.snd := by
    funext pr
    rfl
  rw [this, ← List.map_map, List.enumFrom_map_snd]

theorem enumRows_id (records : List FileRec) (sid : Nat) :
    (((records.enumFrom 1).map (fun pr => rowOfRecord sid pr.1 pr.2)).map
      (fun r => r.id)) = List.range' 1 records.length := by
  rw [List.map_map]
  have : ((fun r : FileRow => r.id) ∘ fun pr : Nat × FileRec =>
      rowOfRecord sid pr.1 pr.2) = Prod.fst := by
    funext pr
    rfl
  rw [this, List.enumFrom_map_fst]

theorem survivors_paths_nodup {records : List FileRec}
    (hnodup : (records.map (fun f => f.path)).Nodup) :
    ((survivors records).map (fun f => f.path)).Nodup := by
  have hperm := (survivors_perm records).map (fun f => f.path)
  rw [hperm.nodup_iff]
  exact ((List.filter_sublist records).map (fun f => f.path)).nodup hnodup

theorem path_inj_of_nodup {records : List FileRec}
    (hnodup : (records.map (fun f => f.path)).Nodup) :
    ∀ x ∈ records, ∀ y ∈ records, x.path = y.path → x = y := by
  intro x hx y hy hxy
  exact List.inj_on_of_nodup_map hnodup hx hy hxy

theorem applyHashUpdates_rowOfRecord (hashFn : ByteSeq → Nat)
    {records : List FileRec}
    (hnodup : (records.map (fun f => f.path)).Nodup)
    (i : Nat) {r : FileRec} (hr : r ∈ records) :
    applyHashUpdates hashFn (survivors records) (rowOfRecord 1 i r) =
      (if bigBucket records r = true then
        markRow (calculateHash hashFn r.content) (rowOfRecord 1 i r)
      else rowOfRecord 1 i r) := by
  have hrowpath : (rowOfRecord 1 i r).path = r.path := rfl
  rw [applyHashUpdates]
  cases hfind : (survivors records).find?
      (fun f => decide (f.path = (rowOfRecord 1 i r).path)) with
  | none =>
    have hnot : r ∉ survivors records := by
      intro hmem
      have := List.find?_eq_none.mp hfind r hmem
      simp [hrowpath] at this
    have hbig : ¬ bigBucket records r = true := by
      intro hb
      exact hnot (mem_survivors.mpr ⟨hr, hb⟩)
    simp [hbig]
  | some f =>
    have hfmem : f ∈ survivors records := List.mem_of_find?_eq_some hfind
    have hfpath : f.path = r.path := by
      have := List.find?_some hfind
      simpa [hrowpath] using this
    rcases mem_survivors.mp hfmem with ⟨hfrec, hfbig⟩
    have hfr : f = r := path_inj_of_nodup hnodup f hfrec r hr hfpath
    subst hfr
    simp [hfbig]

theorem completeScan_files (db : ScanDB) (sid et : Nat) :
    (ScanDB.completeScan db sid et).files = db.files := rfl

theorem updateScanProgress_files (db : ScanDB) (a b c : Nat) :
    (ScanDB.updateScanProgress db a b c).files = db.files := rfl

theorem runIndexed_db_files (hashFn : ByteSeq → Nat)
    (ip : Option String) (cwd : String) (rnd : List Nat) (baseDir : String)
    (st et : Nat) (records : List FileRec)
    (hnodup : (records.map (fun f => f.path)).Nodup) :
    (runIndexed hashFn ip cwd rnd baseDir st et records).db.files =
      (records.enumFrom 1).map (fun pr =>
        if bigBucket records pr.2 = true then
          markRow (calculateHash hashFn pr.2.content)
            (rowOfRecord 1 pr.1 pr.2)
        else rowOfRecord 1 pr.1 pr.2) := by
  simp only [runIndexed, completeScan_files]
  rw [apply_ite (fun d : ScanDB => d.files), updateScanProgress_files,
    ite_self]
  set db2 := records.foldl
    (fun d r => ScanDB.addFile d (ScanDB.startScan ScanDB.empty baseDir st).2 r)
    (ScanDB.startScan ScanDB.empty baseDir st).1 with hdb2
  set db3 := if records.length = 0 then db2
    else ScanDB.updateScanProgress db2
      (ScanDB.startScan ScanDB.empty baseDir st).2 records.length 0 with hdb3
  have hadd := addFold_state (ScanDB.startScan ScanDB.empty baseDir st).2
    records (ScanDB.startScan ScanDB.empty baseDir st).1
  have hsid : (ScanDB.startScan ScanDB.empty baseDir st).2 = 1 := rfl
  have hdb2files : db2.files =
      (records.enumFrom 1).map (fun pr => rowOfRecord 1 pr.1 pr.2) := by
    rw [hdb2]
    rw [hadd.1]
    have h0 : (ScanDB.startScan ScanDB.empty baseDir st).1.files = [] := rfl
    have h1 : (ScanDB.startScan ScanDB.empty baseDir st).1.nextFileId = 1 := rfl
    rw [h0, h1, hsid]
    rfl
  have hdb3files : db3.files = db2.files := by
    rw [hdb3, apply_ite (fun d : ScanDB => d.files),
      updateScanProgress_files, ite_self]
  have hpath3 : (db3.files.map (fun r => r.path)).Nodup := by
    rw [hdb3files, hdb2files, enumRows_path]
    exact hnodup
  have hid3 : (db3.files.map (fun r => r.id)).Nodup := by
    rw [hdb3files, hdb2files, enumRows_id]
    exact List.nodup_range' 1 records.length
  rw [updFold_files hashFn (survivors records) db3 hpath3 hid3
    (survivors_paths_nodup hnodup)]
  rw [hdb3files, hdb2files, List.map_map]
  apply List.map_congr_left
  intro pr hpr
  have hmem : pr.2 ∈ records := by
    have := List.mem_map_of_mem Prod.snd hpr
    rwa [List.enumFrom_map_snd] at this
  simp only [Function.comp]
  exact applyHashUpdates_rowOfRecord hashFn hnodup pr.1 hmem

theorem pushes_filter_hash_perm (hashFn : ByteSeq → Nat)
    (records : List FileRec) (d : Nat) :
    List.Perm
      ((pushes hashFn records).filter (fun a => decide (a.hash = some d)))
      ((records.filter (fun r => bigBucket records r &&
        decide (calculateHash hashFn r.content = d))).map
          (updateFullHash hashFn)) := by
  have h1 := (pushes_perm hashFn records).filter
    (fun a => decide (a.hash = some d))
  refine h1.trans ?_
  rw [List.filter_map]
  have h2 : ((fun a : FileRec => decide (a.hash = some d)) ∘
      updateFullHash hashFn) = fun r : FileRec =>
        decide (calculateHash hashFn r.content = d) := by
    funext r
    simp [updateFullHash, Function.comp]
  rw [h2, List.filter_filter]
  apply List.Perm.map
  apply List.Perm.of_eq
  apply List.filter_congr
  intro r _
  by_cases hb : bigBucket records r = true <;>
    by_cases hd : calculateHash hashFn r.content = d <;>
      simp [hb, hd]

theorem canonSel_length (hashFn : ByteSeq → Nat) (records : List FileRec)
    (d : Nat) :
    (canonSel hashFn records d).length =
      ((pushes hashFn records).filter
        (fun a => decide (a.hash = some d))).length := by
  rw [(pushes_filter_hash_perm hashFn records d).length_eq, canonSel,
    List.length_map, List.length_map]

theorem canonSel_multiset (hashFn : ByteSeq → Nat) (records : List FileRec)
    (d : Nat) :
    ((canonSel hashFn records d : List String) : Multiset String) =
      pathMultiset ((pushes hashFn records).filter
        (fun a => decide (a.hash = some d))) := by
  rw [pathMultiset]
  apply Multiset.coe_eq_coe.mpr
  refine List.Perm.symm ?_
  have := (pushes_filter_hash_perm hashFn records d).map (fun f => f.path)
  refine this.trans ?_
  rw [canonSel, List.map_map]
  apply List.Perm.of_eq
  apply List.map_congr_left
  intro r _
  rfl

theorem memKeys_perm (hashFn : ByteSeq → Nat) (records : List FileRec) :
    List.Perm
      (firstKeys ((pushes hashFn records).map (fun f : FileRec => f.hash)))
      ((canonKeys hashFn records).map some) := by
  have hnd1 := nodup_firstKeys
    ((pushes hashFn records).map (fun f : FileRec => f.hash))
  have hnd2 : ((canonKeys hashFn records).map some).Nodup :=
    (nodup_firstKeys _).map (fun _ _ h => Option.some.inj h)
  rw [List.perm_ext_iff_of_nodup hnd1 hnd2]
  intro k
  rw [mem_firstKeys, List.mem_map, List.mem_map]
  constructor
  · rintro ⟨f, hf, rfl⟩
    rcases mem_pushes.mp hf with ⟨r, hr, hb, rfl⟩
    refine ⟨calculateHash hashFn r.content, ?_, rfl⟩
    rw [canonKeys, mem_firstKeys]
    exact List.mem_map_of_mem _ (List.mem_filter.mpr ⟨hr, hb⟩)
  · rintro ⟨d, hd, rfl⟩
    rw [canonKeys, mem_firstKeys] at hd
    rcases List.mem_map.mp hd with ⟨r, hr, rfl⟩
    rcases List.mem_filter.mp hr with ⟨hrmem, hrbig⟩
    exact ⟨updateFullHash hashFn r,
      mem_pushes.mpr ⟨r, hrmem, hrbig, rfl⟩, rfl⟩

theorem memory_family_canonical (hashFn : ByteSeq → Nat)
    (records : List FileRec) :
    List.Perm ((findDuplicatesGroups hashFn records).map pathMultiset)
      (((canonKeys hashFn records).filter (canonCond hashFn records)).map
        (fun d => ((canonSel hashFn records d : List String) :
          Multiset String))) := by
  refine ((sortRanked_perm _ _).map _).trans ?_
  have hexpand :
      (duplicateGroupsUnsorted hashFn records).map pathMultiset =
        ((firstKeys ((pushes hashFn records).map
          (fun f : FileRec => f.hash))).filter
          (fun k => decide
            (1 < ((pushes hashFn records).filter
              (fun a => decide (a.hash = k))).length))).map
          (fun k => pathMultiset
            ((pushes hashFn records).filter
              (fun a => decide (a.hash = k)))) := by
    rw [duplicateGroupsUnsorted, bucketsBy, List.filter_map, List.map_map]
    rfl
  rw [hexpand]
  refine ((memKeys_perm hashFn records).filter _).map _ |>.trans ?_
  rw [List.filter_map, List.map_map]
  apply List.Perm.of_eq
  have hcond : ∀ d ∈ canonKeys hashFn records,
      ((fun k => decide (1 < ((pushes hashFn records).filter
        (fun a => decide (a.hash = k))).length)) ∘ some) d =
        canonCond hashFn records d := by
    intro d _
    simp only [Function.comp, canonCond]
    rw [canonSel_length]
  rw [List.filter_congr hcond]
  apply List.map_congr_left
  intro d _
  simp only [Function.comp]
  rw [canonSel_multiset]

theorem enum_collapse {β : Type} (records : List FileRec) (Q : FileRec → Bool)
    (g : FileRec → β) :
    ((records.enumFrom 1).filter (fun pr => Q pr.2)).map (fun pr => g pr.2) =
      (records.filter Q).map g := by
  have h1 : ((records.enumFrom 1).filter (fun pr => Q pr.2)).map
      (fun pr => g pr.2) =
      (((records.enumFrom 1).filter (fun pr => Q pr.2)).map Prod.snd).map g := by
    rw [List.map_map]
    rfl
  rw [h1]
  have h2 : ((records.enumFrom 1).filter (fun pr => Q pr.2)).map Prod.snd =
      ((records.enumFrom 1).map Prod.snd).filter Q := by
    rw [List.filter_map]
    rfl
  rw [h2, List.enumFrom_map_snd]

theorem runIndexed_rows (hashFn : ByteSeq → Nat)
    (ip : Option String) (cwd : String) (rnd : List Nat) (baseDir : String)
    (st et : Nat) (records : List FileRec)
    (hnodup : (records.map (fun f => f.path)).Nodup) :
    (runIndexed hashFn ip cwd rnd baseDir st et records).db.files.filter
        (fun r => decide (r.scanId = 1 ∧ ¬ r.groupId = none)) =
      ((records.enumFrom 1).filter (fun pr => bigBucket records pr.2)).map
        (fun pr => markRow (calculateHash hashFn pr.2.content)
          (rowOfRecord 1 pr.1 pr.2)) := by
  rw [runIndexed_db_files hashFn ip cwd rnd baseDir st et records hnodup,
    List.filter_map]
  have hc : ∀ pr ∈ records.enumFrom 1,
      ((fun r : FileRow => decide (r.scanId = 1 ∧ ¬ r.groupId = none)) ∘
        (fun pr : Nat × FileRec =>
          if bigBucket records pr.2 = true then
            markRow (calculateHash hashFn pr.2.content)
              (rowOfRecord 1 pr.1 pr.2)
          else rowOfRecord 1 pr.1 pr.2)) pr =
        bigBucket records pr.2 := by
    intro pr _
    by_cases hb : bigBucket records pr.2 = true
    · simp [hb, markRow, rowOfRecord]
    · simp [hb, rowOfRecord]
  rw [List.filter_congr hc]
  apply List.map_congr_left
  intro pr hpr
  have hb : bigBucket records pr.2 = true := (List.mem_filter.mp hpr).2
  simp [hb]

theorem getDuplicateGroups_canonical (db : ScanDB) (sid : Nat)
    (hashFn : ByteSeq → Nat) (records : List FileRec)
    (hrows : db.files.filter
        (fun r => decide (r.scanId = sid ∧ ¬ r.groupId = none)) =
      ((records.enumFrom 1).filter (fun pr => bigBucket records pr.2)).map
        (fun pr => markRow (calculateHash hashFn pr.2.content)
          (rowOfRecord 1 pr.1 pr.2))) :
    List.Perm ((ScanDB.getDuplicateGroups db sid).map
        (fun pr => ((pr.2.map (fun r => r.path) : List String) :
          Multiset String)))
      (((canonKeys hashFn records).filter (canonCond hashFn records)).map
        (fun d => ((canonSel hashFn records d : List String) :
          Multiset String))) := by
  have hgroup : ∀ d : Nat,
      (db.files.filter
        (fun r => decide (r.scanId = sid ∧ ¬ r.groupId = none))).filter
          (fun r => decide (r.groupId = some d)) =
        ((records.enumFrom 1).filter (fun pr => bigBucket records pr.2 &&
          decide (calculateHash hashFn pr.2.content = d))).map
          (fun pr => markRow (calculateHash hashFn pr.2.content)
            (rowOfRecord 1 pr.1 pr.2)) := by
    intro d
    rw [hrows, List.filter_map]
    have hc : ∀ pr ∈ (records.enumFrom 1).filter
        (fun pr => bigBucket records pr.2),
        ((fun r : FileRow => decide (r.groupId = some d)) ∘
          (fun pr : Nat × FileRec =>
            markRow (calculateHash hashFn pr.2.content)
              (rowOfRecord 1 pr.1 pr.2))) pr =
          decide (calculateHash hashFn pr.2.content = d) := by
      intro pr _
      by_cases hd : calculateHash hashFn pr.2.content = d <;>
        simp [markRow, rowOfRecord, hd]
    rw [List.filter_congr hc, List.filter_filter]
    congr 1
    apply List.filter_congr
    intro pr _
    by_cases h1 : bigBucket records pr.2 = true <;>
      by_cases h2 : calculateHash hashFn pr.2.content = d <;>
        simp [h1, h2]
  have hpaths : ∀ d : Nat,
      ((db.files.filter
        (fun r => decide (r.scanId = sid ∧ ¬ r.groupId = none))).filter
          (fun r => decide (r.groupId = some d))).map (fun r => r.path) =
        canonSel hashFn records d := by
    intro d
    rw [hgroup d, List.map_map]
    have : ((fun r : FileRow => r.path) ∘
        (fun pr : Nat × FileRec =>
          markRow (calculateHash hashFn pr.2.content)
            (rowOfRecord 1 pr.1 pr.2))) =
        fun pr : Nat × FileRec => pr.2.path := by
      funext pr
      rfl
    rw [this, canonSel]
    exact enum_collapse records
      (fun r => bigBucket records r &&
        decide (calculateHash hashFn r.content = d)) (fun f => f.path)
  have hkeys : (db.files.filter
      (fun r => decide (r.scanId = sid ∧ ¬ r.groupId = none))).filterMap
        (fun r => r.groupId) =
      (records.filter (bigBucket records)).map
        (fun r => calculateHash hashFn r.content) := by
    rw [hrows, List.filterMap_map]
    have : ((fun r : FileRow => r.groupId) ∘
        (fun pr : Nat × FileRec =>
          markRow (calculateHash hashFn pr.2.content)
            (rowOfRecord 1 pr.1 pr.2))) =
        fun pr : Nat × FileRec =>
          some (calculateHash hashFn pr.2.content) := by
      funext pr
      rfl
    rw [this]
    have h2 : ((records.enumFrom 1).filter
        (fun pr => bigBucket records pr.2)).filterMap
        (fun pr : Nat × FileRec =>
          some (calculateHash hashFn pr.2.content)) =
        ((records.enumFrom 1).filter
          (fun pr => bigBucket records pr.2)).map
          (fun pr : Nat × FileRec => calculateHash hashFn pr.2.content) := by
      have hcomp : (fun pr : Nat × FileRec =>
          some (calculateHash hashFn pr.2.content)) =
          some ∘ (fun pr : Nat × FileRec =>
            calculateHash hashFn pr.2.content) := rfl
      rw [hcomp, List.filterMap_eq_map]
    rw [h2]
    exact enum_collapse records (bigBucket records)
      (fun r => calculateHash hashFn r.content)
  rw [ScanDB.getDuplicateGroups]
  refine ((sortRanked_perm _ _).map _).trans ?_
  rw [hkeys]
  set K := (records.filter (bigBucket records)).map
    (fun r => calculateHash hashFn r.content) with hK
  have hKfirst : canonKeys hashFn records = firstKeys K := rfl
  rw [List.filter_map, List.map_map]
  have hlen : ∀ d : Nat,
      ((fun p : Nat × List FileRow => decide (1 < p.2.length)) ∘
        (fun g => (g, (db.files.filter
          (fun r => decide (r.scanId = sid ∧ ¬ r.groupId = none))).filter
            (fun r => decide (r.groupId = some g))))) d =
        canonCond hashFn records d := by
    intro d
    simp only [Function.comp, canonCond]
    have := congrArg List.length (hpaths d)
    rw [List.length_map] at this
    rw [this]
  refine List.Perm.trans
    (((sortRanked_perm (fun k : Nat => -(k : Int))
      (firstKeys K)).filter _).map _) ?_
  rw [List.filter_congr (fun d _ => hlen d)]
  rw [← hKfirst]
  apply List.Perm.of_eq
  apply List.map_congr_left
  intro d _
  simp only [Function.comp]
  rw [← hpaths d]

theorem mem_getDuplicateGroups {db : ScanDB} {sid : Nat}
    {pr : Nat × List FileRow}
    (h : pr ∈ ScanDB.getDuplicateGroups db sid) :
    1 < pr.2.length ∧
      pr.2 = (db.files.filter
        (fun r => decide (r.scanId = sid ∧ ¬ r.groupId = none))).filter
          (fun r => decide (r.groupId = some pr.1)) := by
  simp only [ScanDB.getDuplicateGroups] at h
  have h1 := (sortRanked_perm _ _).mem_iff.mp h
  have h2 := List.mem_filter.mp h1
  rcases List.mem_map.mp h2.1 with ⟨k, _, rfl⟩
  exact ⟨by simpa using h2.2, rfl⟩

theorem length_filter_lt_of_exists {α : Type} (q : α → Bool)
    (l : List α) (a : α) (ha : a ∈ l) (hq : q a = false) :
    (l.filter q).length < l.length := by
  induction l with
  | nil => simp at ha
  | cons b t ih =>
    rcases List.mem_cons.mp ha with rfl | ha'
    · rw [List.filter_cons, hq]
      simp only [Bool.false_eq_true, if_false, List.length_cons]
      have := List.length_filter_le q t
      omega
    · cases hb : q b with
      | true =>
        rw [List.filter_cons, hb]
        have := ih ha'
        simp only [List.length_cons, if_true]
        simpa using this
      | false =>
        rw [List.filter_cons, hb]
        simp only [Bool.false_eq_true, if_false, List.length_cons]
        have := ih ha'
        omega

/-- C5: mutation consistency of the index. After deleteFile(p), the
group query never returns a row with path p, and a group of the session
that held exactly two rows one of which had path p is not reported at all
(it has dropped below the two-member threshold of the query). -/
theorem claim5_delete_consistency (db : ScanDB) (p : String) (sid : Nat) :
    (∀ pr ∈ ScanDB.getDuplicateGroups (ScanDB.deleteFile db p) sid,
        ∀ r ∈ pr.2, ¬ r.path = p) ∧
      ∀ gid : Nat,
        (db.files.filter (fun r =>
          decide (r.scanId = sid ∧ r.groupId = some gid))).length = 2 →
        (∃ r ∈ db.files.filter (fun r =>
          decide (r.scanId = sid ∧ r.groupId = some gid)), r.path = p) →
        ∀ pr ∈ ScanDB.getDuplicateGroups (ScanDB.deleteFile db p) sid,
          ¬ pr.1 = gid := by
  constructor
  · intro pr hpr r hr
    have hch := (mem_getDuplicateGroups hpr).2
    rw [hch] at hr
    have h1 := (List.mem_filter.mp hr).1
    have h2 := (List.mem_filter.mp h1).1
    have h3 := (List.mem_filter.mp h2).2
    simpa using h3
  · intro gid hlen hex pr hpr hprg
    have hch := mem_getDuplicateGroups hpr
    rcases hex with ⟨r0, hr0, hr0p⟩
    have hcollapse : pr.2 =
        (db.files.filter (fun r =>
          decide (r.scanId = sid ∧ r.groupId = some gid))).filter
            (fun r => decide (¬ r.path = p)) := by
      rw [hch.2, hprg]
      simp only [ScanDB.deleteFile]
      rw [List.filter_filter, List.filter_filter, List.filter_filter]
      apply List.filter_congr
      intro r _
      rcases hg : r.groupId with _ | g
      · by_cases ha : r.path = p <;> by_cases hb : r.scanId = sid <;>
          simp [ha, hb, hg]
      · by_cases ha : r.path = p <;> by_cases hb : r.scanId = sid <;>
          by_cases hgg : g = gid <;> simp [ha, hb, hg, hgg]
    have hsmall : pr.2.length < 2 := by
      rw [hcollapse]
      have := length_filter_lt_of_exists
        (fun r => decide (¬ r.path = p))
        (db.files.filter (fun r =>
          decide (r.scanId = sid ∧ r.groupId = some gid))) r0 hr0
        (by simp [hr0p])
      omega
    have := hch.1
    omega

theorem claim5_witness :
    (¬ (FileRow.path ⟨3, 1, "r", 1, 0, 0, 0, some 7, some 7⟩) = "p") ∧
      ¬ (Prod.fst ((7 : Nat),
        ([⟨3, 1, "r", 1, 0, 0, 0, some 7, some 7⟩,
          ⟨4, 1, "s", 1, 0, 0, 0, some 7, some 7⟩] : List FileRow))) = 5 :=
  ⟨(claim5_delete_consistency db0 "p" 1).1
      ((7 : Nat), [⟨3, 1, "r", 1, 0, 0, 0, some 7, some 7⟩,
        ⟨4, 1, "s", 1, 0, 0, 0, some 7, some 7⟩]) (by decide)
      ⟨3, 1, "r", 1, 0, 0, 0, some 7, some 7⟩ (by decide),
    (claim5_delete_consistency db0 "p" 1).2 5 (by decide) (by decide)
      ((7 : Nat), [⟨3, 1, "r", 1, 0, 0, 0, some 7, some 7⟩,
        ⟨4, 1, "s", 1, 0, 0, 0, some 7, some 7⟩]) (by decide)⟩

theorem flatMap_hex_length : ∀ l : List Nat,
    (l.flatMap byteHexChars).length = 2 * l.length := by
  intro l
  induction l with
  | nil => rfl
  | cons b t ih =>
    rw [List.flatMap_cons, List.length_append, ih]
    simp only [byteHexChars, List.length_cons, List.length_nil,
      List.length_cons]
    omega

theorem hexOfBytes_length (l : List Nat) :
    (hexOfBytes l).length = 2 * l.length := by
  have h0 : (hexOfBytes l).length = (l.flatMap byteHexChars).length := rfl
  rw [h0, flatMap_hex_length]

theorem hexDigitChar_mem {n : Nat} (h : n < 16) :
    hexDigitChar n ∈ ("0123456789abcdef".toList) := by
  interval_cases n <;> decide

theorem hexOfBytes_chars {l : List Nat} (hb : ∀ b ∈ l, b < 256) :
    ∀ ch ∈ (hexOfBytes l).toList, ch ∈ ("0123456789abcdef".toList) := by
  intro ch hch
  have h0 : (hexOfBytes l).toList = l.flatMap byteHexChars := rfl
  rw [h0] at hch
  rcases List.mem_flatMap.mp hch with ⟨b, hbmem, hc⟩
  have hb256 := hb b hbmem
  have : ch = hexDigitChar (b / 16) ∨ ch = hexDigitChar (b % 16) := by
    simpa [byteHexChars] using hc
  rcases this with rfl | rfl
  · exact hexDigitChar_mem ((Nat.div_lt_iff_lt_mul (by omega)).mpr (by omega))
  · exact hexDigitChar_mem (Nat.mod_lt b (by omega))

theorem updStep_scans (hashFn : ByteSeq → Nat) (db : ScanDB) (f : FileRec) :
    (updStep hashFn db f).scans = db.scans := by
  rw [updStep]
  cases h : ScanDB.findIdByPath db f.path <;> rfl

theorem updFold_scans (hashFn : ByteSeq → Nat) :
    ∀ (S : List FileRec) (db : ScanDB),
      (S.foldl (updStep hashFn) db).scans = db.scans := by
  intro S
  induction S with
  | nil => intro db; rfl
  | cons f S ih =>
    intro db
    rw [List.foldl_cons, ih (updStep hashFn db f), updStep_scans]

theorem runIndexed_scans_length (hashFn : ByteSeq → Nat)
    (ip : Option String) (cwd : String) (rnd : List Nat) (baseDir : String)
    (st et : Nat) (records : List FileRec) :
    (runIndexed hashFn ip cwd rnd baseDir st et records).db.scans.length = 1 := by
  simp only [runIndexed]
  have hcs : ∀ (db : ScanDB) (a b : Nat),
      (ScanDB.completeScan db a b).scans.length = db.scans.length := by
    intro db a b
    simp [ScanDB.completeScan]
  have hup : ∀ (db : ScanDB) (a b c : Nat),
      (ScanDB.updateScanProgress db a b c).scans.length = db.scans.length := by
    intro db a b c
    simp [ScanDB.updateScanProgress]
  rw [hcs, apply_ite (fun d : ScanDB => d.scans.length), hup, ite_self]
  have hscans := (addFold_state (ScanDB.startScan ScanDB.empty baseDir st).2
    records (ScanDB.startScan ScanDB.empty baseDir st).1).2.1
  have hupdf := updFold_scans hashFn (survivors records)
  rw [congrArg List.length (hupdf _), apply_ite (fun d : ScanDB => d.scans.length),
    hup, ite_self, congrArg List.length hscans]
  rfl

/-- C10: persistence is unconditional. Every call of findDuplicates
creates the index database: a scan_info row is always inserted, the
returned dbPath is always the resolved path, and when no indexPath
option is supplied the path is generated inside the process working
directory as ".super-dee-duper." followed by exactly 8 hex characters
rendered from 4 random bytes. -/
theorem claim10_unconditional_persistence (hashFn : ByteSeq → Nat)
    (ip : Option String) (cwd : String) (rnd : List Nat)
    (baseDir : String) (st et : Nat) (records : List FileRec)
    (h4 : rnd.length = 4) (hb : ∀ b ∈ rnd, b < 256) :
    (runIndexed hashFn ip cwd rnd baseDir st et records).db.scans.length = 1 ∧
      (runIndexed hashFn ip cwd rnd baseDir st et records).dbPath =
        resolveDbPath ip cwd rnd ∧
      (ip = none →
        (runIndexed hashFn ip cwd rnd baseDir st et records).dbPath =
          cwd ++ "/" ++ (".super-dee-duper." ++ hexOfBytes rnd) ∧
        (hexOfBytes rnd).length = 8 ∧
        ∀ ch ∈ (hexOfBytes rnd).toList, ch ∈ ("0123456789abcdef".toList)) := by
  refine ⟨runIndexed_scans_length hashFn ip cwd rnd baseDir st et records,
    rfl, ?_⟩
  intro hnone
  subst hnone
  refine ⟨rfl, ?_, hexOfBytes_chars hb⟩
  rw [hexOfBytes_length, h4]

theorem claim10_witness :
    (runIndexed lenHash none "/w" [0, 17, 171, 255] "d" 0 9
      [recA, recB]).db.scans.length = 1 ∧
      (runIndexed lenHash none "/w" [0, 17, 171, 255] "d" 0 9
        [recA, recB]).dbPath =
        "/w" ++ "/" ++ (".super-dee-duper." ++ hexOfBytes [0, 17, 171, 255]) ∧
      (hexOfBytes [0, 17, 171, 255]).length = 8 := by
  have h := claim10_unconditional_persistence lenHash none "/w"
    [0, 17, 171, 255] "d" 0 9 [recA, recB] (by decide) (by decide)
  exact ⟨h.1, (h.2.2 rfl).1, (h.2.2 rfl).2.1⟩

theorem getDuplicateGroups_two_le (db : ScanDB) (sid : Nat) :
    ∀ pr ∈ ScanDB.getDuplicateGroups db sid, 2 ≤ pr.2.length := by
  intro pr hpr
  have := (mem_getDuplicateGroups hpr).1
  omega

theorem getDuplicateGroups_sorted (db : ScanDB) (sid : Nat) :
    (ScanDB.getDuplicateGroups db sid).Pairwise
      (fun p1 p2 => (p2.2.headD default).size ≤ (p1.2.headD default).size) := by
  have h := sortRanked_sorted
    (fun p : Nat × List FileRow => ((p.2.headD default).size : Int))
  simp only [ScanDB.getDuplicateGroups]
  exact (h _).imp (fun hle => by exact_mod_cast hle)

/-- C4 (amended): for a fresh index-backed scan over records with
distinct paths, getDuplicateGroups returns exactly the session's groups
with at least two members, each group's path membership identical to the
in-memory classifier's group for the same digest, ordered by descending
size; the tie order among equal-size groups follows the index's group-key
order and therefore need not match the in-memory discovery order. -/
theorem claim4_index_memory_equivalence (hashFn : ByteSeq → Nat)
    (ip : Option String) (cwd : String) (rnd : List Nat) (baseDir : String)
    (st et : Nat) (records : List FileRec)
    (hnodup : (records.map (fun f => f.path)).Nodup) :
    (∀ pr ∈ ScanDB.getDuplicateGroups
        (runIndexed hashFn ip cwd rnd baseDir st et records).db
        (runIndexed hashFn ip cwd rnd baseDir st et records).scanId,
      2 ≤ pr.2.length) ∧
      (ScanDB.getDuplicateGroups
        (runIndexed hashFn ip cwd rnd baseDir st et records).db
        (runIndexed hashFn ip cwd rnd baseDir st et records).scanId).Pairwise
        (fun p1 p2 => (p2.2.headD default).size ≤ (p1.2.headD default).size) ∧
      (((ScanDB.getDuplicateGroups
          (runIndexed hashFn ip cwd rnd baseDir st et records).db
          (runIndexed hashFn ip cwd rnd baseDir st et records).scanId).map
          (fun pr => ((pr.2.map (fun r => r.path) : List String) :
            Multiset String)) : List (Multiset String)) :
        Multiset (Multiset String)) =
      (((runIndexed hashFn ip cwd rnd baseDir st et records).result.map
          pathMultiset : List (Multiset String)) :
        Multiset (Multiset String)) := by
  have hsid : (runIndexed hashFn ip cwd rnd baseDir st et records).scanId = 1 :=
    rfl
  have hres : (runIndexed hashFn ip cwd rnd baseDir st et records).result =
      findDuplicatesGroups hashFn records := rfl
  refine ⟨getDuplicateGroups_two_le _ _, getDuplicateGroups_sorted _ _, ?_⟩
  rw [hsid, hres]
  apply Multiset.coe_eq_coe.mpr
  have hdb := getDuplicateGroups_canonical
    (runIndexed hashFn ip cwd rnd baseDir st et records).db 1 hashFn records
    (runIndexed_rows hashFn ip cwd rnd baseDir st et records hnodup)
  have hmem := memory_family_canonical hashFn records
  exact hdb.trans hmem.symm

theorem claim4_counterexample :
    ((ScanDB.getDuplicateGroups
        (runIndexed foldHash none "/w" [0, 0, 0, 0] "d" 0 9 recsTie).db
        (runIndexed foldHash none "/w" [0, 0, 0, 0] "d" 0 9
          recsTie).scanId).map Prod.fst = [51, 52]) ∧
      ((runIndexed foldHash none "/w" [0, 0, 0, 0] "d" 0 9 recsTie).result.map
        (fun g => (g.headD default).hash) = [some 52, some 51]) := by
  decide

theorem claim4_witness :
    (((ScanDB.getDuplicateGroups
        (runIndexed foldHash none "/w" [0, 0, 0, 0] "d" 0 9 recsTie).db
        (runIndexed foldHash none "/w" [0, 0, 0, 0] "d" 0 9
          recsTie).scanId).map
        (fun pr => ((pr.2.map (fun r => r.path) : List String) :
          Multiset String)) : List (Multiset String)) :
      Multiset (Multiset String)) =
      (((runIndexed foldHash none "/w" [0, 0, 0, 0] "d" 0 9 recsTie).result.map
          pathMultiset : List (Multiset String)) :
        Multiset (Multiset String)) :=
  (claim4_index_memory_equivalence foldHash none "/w" [0, 0, 0, 0] "d" 0 9
    recsTie (by decide)).2.2
